import Mathlib

/-!
# The reference-counted store handle of `kv/db.go`

`db` wraps one `*bolt.DB`, counts the callers that hold it and closes it when
the last one lets go.  The storage engine (`bolt.Open`, `Update`, `Close`) is an
external collaborator: its calls are recorded in a log and the error each call
returns is an input of the model.

Two views of the same code are given.

* An atomic-step machine (`PC`, `step`, `Pool`): one step per atomic operation
  or engine call of `open` and `close`, so that calls of several goroutines
  can be interleaved.
* The functions `db.open` and `db.close`: one whole call, run with no other
  call in flight.  `runSolo_open` and `runSolo_close` show that they are the
  atomic-step machine run alone.

Races between goroutines are settled on the atomic-step machine: `Racing` is
the invariant of calls of `open()` racing on a closed handle, kept by every
step (`racing_step`) and hence along every schedule (`racing_exec`); such a
race is never stuck (`racing_progress`) and always ends (`exec_stepsLeft`,
`racing_completes`).

`refCount` is an `atomic.Int64`.  `db.open`, `db.close` and `step` count with
unbounded integers; `db.open64` and `db.close64` are the same calls with the
counter wrapping around at `2^63`, and the statements about a call on an
arbitrary state are made on them.  The two agree while the count stays in
range (`open64_eq_open`, `close64_eq_close`), which it does on a fresh handle
for any run of fewer than `2^63` calls (`runOps64_eq_runOps`).
-/

namespace KV

/-- Identity of a `*bolt.DB` value. -/
abbrev Conn := Nat

/-- A Go `error` value, identified by its message (`nil` is `none : Option Err`). -/
abbrev Err := String

/-- One call into the storage engine, with what it returned. -/
inductive EngineCall where
  /-- Call `bolt.Open(...)` that returned the connection `h` and a nil error. -/
  | openOk (h : Conn)
  /-- Call `bolt.Open(...)` that returned the error `e`. -/
  | openErr (e : Err)
  /-- Call `h.Update(...)`; `res` is what `CreateBucketIfNotExists` returned inside it. -/
  | update (h : Conn) (res : Option Err)
  /-- Call `h.Close()` that returned `res`. -/
  | close (h : Conn) (res : Option Err)
  deriving DecidableEq, Repr

/-- The storage engine as seen from the handle. -/
structure Engine where
  /-- Identity of the connection the next successful `bolt.Open` returns. -/
  next : Conn
  /-- Engine calls made so far, oldest first. -/
  calls : List EngineCall
  deriving DecidableEq, Repr

/-- The struct `db`: `handle`, `opened`, `refCount` and `lock` (`true` while the mutex is held). -/
structure db where
  handle : Conn
  opened : Bool
  refCount : Int
  lock : Bool
  deriving DecidableEq, Repr

/-- Everything a call can read or change: the handle and the engine behind it. -/
structure State where
  d : db
  eng : Engine
  deriving DecidableEq, Repr

/-- The placeholder `new(bolt.DB)` that `newDB` stores: a connection nobody opened. -/
def noConn : Conn := 0

/-- The constructor `newDB()`: placeholder handle, `opened` false, `refCount` zero, mutex free. -/
def newDB : db :=
  { handle := noConn, opened := false, refCount := 0, lock := false }

/-- An engine on which nothing has been called yet. -/
def Engine.fresh : Engine := { next := 1, calls := [] }

/-- A freshly constructed handle in front of a fresh engine. -/
def State.fresh : State := { d := newDB, eng := Engine.fresh }

/-! ## Atomic operations -/

/-- Atomic `db.refCount.Add(k)`. -/
def State.addRef (k : Int) (s : State) : State :=
  { s with d := { s.d with refCount := s.d.refCount + k } }

/-- Atomic `db.opened.Store(b)`. -/
def State.storeOpened (b : Bool) (s : State) : State :=
  { s with d := { s.d with opened := b } }

/-- Assignment `db.handle = h`. -/
def State.setHandle (h : Conn) (s : State) : State :=
  { s with d := { s.d with handle := h } }

/-- The mutex changes hands: `true` on `Lock()`, `false` on `Unlock()`. -/
def State.setLock (b : Bool) (s : State) : State :=
  { s with d := { s.d with lock := b } }

/-- Append one call to the engine log. -/
def State.record (c : EngineCall) (s : State) : State :=
  { s with eng := { s.eng with calls := s.eng.calls ++ [c] } }

/-- A successful `bolt.Open`: the engine hands out connection `next` and logs it. -/
def State.boltOpenOk (s : State) : State :=
  { s with eng := { next := s.eng.next + 1, calls := s.eng.calls ++ [EngineCall.openOk s.eng.next] } }

/-! ## Whole calls, run alone -/

/-- The method `open` (db.go lines 35-66) run with no other call in flight.
`openErr` is the error of `bolt.Open`, `updErr` the error of
`CreateBucketIfNotExists`; each is used only if that engine call is made.
The result is `none` when `Lock()` never returns because the mutex is held. -/
def db.open (openErr updErr : Option Err) (s : State) : Option (Option Err × State) :=
  if s.d.opened then
    some (none, s.addRef 1)
  else if s.d.lock then
    none
  else
    let s := s.setLock true
    if s.d.opened then
      some (none, s.setLock false)
    else
      match openErr with
      | some err => some (some err, (s.record (EngineCall.openErr err)).setLock false)
      | none =>
        let handler := s.eng.next
        let s := s.boltOpenOk
        let s := s.record (EngineCall.update handler updErr)
        let s := s.setHandle handler
        let s := s.storeOpened true
        let s := s.addRef 1
        some (none, s.setLock false)

/-- The method `close` (db.go lines 69-79).  `closeErr` is the error of
`db.handle.Close()`, used only if that call is made. -/
def db.close (closeErr : Option Err) (s : State) : Option Err × State :=
  let s := s.addRef (-1)
  if s.d.refCount = 0 then
    match closeErr with
    | some err => (some err, s.record (EngineCall.close s.d.handle (some err)))
    | none => (none, (s.record (EngineCall.close s.d.handle none)).storeOpened false)
  else
    (none, s)

/-! ## The atomic-step machine -/

/-- The errors the engine returns to one call of `open` or `close`. -/
structure Outcome where
  openErr : Option Err
  updErr : Option Err
  closeErr : Option Err
  deriving DecidableEq, Repr

/-- Where a goroutine stands inside `open` or `close`: the operation it runs next. -/
inductive PC where
  /-- Line 36: `db.opened.Load()`. -/
  | openLoad
  /-- Line 37: `db.refCount.Add(1)`, then `return nil`. -/
  | openFastAdd
  /-- Line 41: `db.lock.Lock()`. -/
  | openLock
  /-- Line 44: `db.opened.Load()` under the mutex. -/
  | openRecheck
  /-- Line 48: `bolt.Open(...)`. -/
  | openBolt
  /-- Line 53: `handler.Update(...)`. -/
  | openUpdate (handler : Conn)
  /-- Line 61: `db.handle = handler`. -/
  | openSetHandle (handler : Conn)
  /-- Line 62: `db.opened.Store(true)`. -/
  | openStore
  /-- Line 63: `db.refCount.Add(1)`. -/
  | openAdd
  /-- The deferred `db.lock.Unlock()`, then return `ret`. -/
  | openUnlock (ret : Option Err)
  /-- Line 70: `db.refCount.Add(-1) == 0`. -/
  | closeAdd
  /-- Line 71: `db.handle.Close()`. -/
  | closeHandle
  /-- Line 75: `db.opened.Store(false)`. -/
  | closeStore
  /-- The call has returned `ret`. -/
  | done (ret : Option Err)
  deriving DecidableEq, Repr

/-- One atomic step of a goroutine.  `none`: the goroutine cannot move (it
waits for the mutex, or its call has returned). -/
def step (o : Outcome) : PC → State → Option (PC × State)
  | PC.openLoad, s => some (if s.d.opened then PC.openFastAdd else PC.openLock, s)
  | PC.openFastAdd, s => some (PC.done none, s.addRef 1)
  | PC.openLock, s => if s.d.lock then none else some (PC.openRecheck, s.setLock true)
  | PC.openRecheck, s => some (if s.d.opened then PC.openUnlock none else PC.openBolt, s)
  | PC.openBolt, s =>
    match o.openErr with
    | some err => some (PC.openUnlock (some err), s.record (EngineCall.openErr err))
    | none => some (PC.openUpdate s.eng.next, s.boltOpenOk)
  | PC.openUpdate handler, s =>
    some (PC.openSetHandle handler, s.record (EngineCall.update handler o.updErr))
  | PC.openSetHandle handler, s => some (PC.openStore, s.setHandle handler)
  | PC.openStore, s => some (PC.openAdd, s.storeOpened true)
  | PC.openAdd, s => some (PC.openUnlock none, s.addRef 1)
  | PC.openUnlock ret, s => some (PC.done ret, s.setLock false)
  | PC.closeAdd, s =>
    let s := s.addRef (-1)
    some (if s.d.refCount = 0 then PC.closeHandle else PC.done none, s)
  | PC.closeHandle, s =>
    match o.closeErr with
    | some err => some (PC.done (some err), s.record (EngineCall.close s.d.handle (some err)))
    | none => some (PC.closeStore, s.record (EngineCall.close s.d.handle none))
  | PC.closeStore, s => some (PC.done none, s.storeOpened false)
  | PC.done _, _ => none

/-- Run one goroutine alone for at most `fuel` steps, until its call returns.
`none`: it got stuck on the mutex or ran out of fuel. -/
def runSolo (o : Outcome) : Nat → PC → State → Option (Option Err × State)
  | _, PC.done ret, s => some (ret, s)
  | 0, _, _ => none
  | fuel + 1, pc, s =>
    match step o pc s with
    | none => none
    | some (pc', s') => runSolo o fuel pc' s'

/-- A goroutine: the call it is in (by its position) and what the engine answers it. -/
structure Thread where
  pc : PC
  out : Outcome
  deriving DecidableEq, Repr

/-- Goroutines sharing one handle. -/
structure Pool where
  threads : List Thread
  s : State
  deriving DecidableEq, Repr

/-- Goroutine `i` takes one atomic step.  `none`: there is no goroutine `i` or it cannot move. -/
def Pool.step (i : Nat) (p : Pool) : Option Pool :=
  match p.threads.get? i with
  | none => none
  | some t =>
    match KV.step t.out t.pc p.s with
    | none => none
    | some (pc', s') => some { threads := p.threads.set i { t with pc := pc' }, s := s' }

/-- Run a schedule: the goroutines named in the list step one after another. -/
def Pool.exec : List Nat → Pool → Option Pool
  | [], p => some p
  | i :: sched, p =>
    match p.step i with
    | none => none
    | some p' => Pool.exec sched p'

/-- A goroutine about to call `open()`. -/
def Thread.callOpen (openErr updErr : Option Err) : Thread :=
  { pc := PC.openLoad, out := { openErr := openErr, updErr := updErr, closeErr := none } }

/-- A goroutine about to call `close()`. -/
def Thread.callClose (closeErr : Option Err) : Thread :=
  { pc := PC.closeAdd, out := { openErr := none, updErr := none, closeErr := closeErr } }

/-! ## Sequences of calls -/

/-- One call on the handle, with the errors the engine would answer it. -/
inductive Op where
  | open (openErr updErr : Option Err)
  | close (closeErr : Option Err)
  deriving DecidableEq, Repr

/-- Run one call alone. -/
def Op.run : Op → State → Option (Option Err × State)
  | Op.open openErr updErr, s => db.open openErr updErr s
  | Op.close closeErr, s => some (db.close closeErr s)

/-- Run calls one after another; the results come back oldest first. -/
def runOps : List Op → State → Option (List (Option Err) × State)
  | [], s => some ([], s)
  | op :: ops, s =>
    match op.run s with
    | none => none
    | some (r, s') =>
      match runOps ops s' with
      | none => none
      | some (rs, s'') => some (r :: rs, s'')

/-- Run calls one after another under the caller discipline: `held` counts the
successful `open()` calls not yet released, and a `close()` is allowed only
while `held` is positive.  Returns the final `held` and state; `none` if a
`close()` is unmatched or a call does not return. -/
def runMatched : List Op → Nat → State → Option (Nat × State)
  | [], held, s => some (held, s)
  | Op.open openErr updErr :: ops, held, s =>
    match db.open openErr updErr s with
    | none => none
    | some (none, s') => runMatched ops (held + 1) s'
    | some (some _, s') => runMatched ops held s'
  | Op.close closeErr :: ops, held, s =>
    match held with
    | 0 => none
    | held' + 1 => runMatched ops held' (db.close closeErr s).2

/-- The connections on which `Close` was called, in call order. -/
def closedConns : List EngineCall → List Conn
  | [] => []
  | EngineCall.close h _ :: cs => h :: closedConns cs
  | _ :: cs => closedConns cs

/-- Number of `bolt.Open` calls in a log, failed ones included. -/
def openCalls : List EngineCall → Nat
  | [] => 0
  | EngineCall.openOk _ :: cs => openCalls cs + 1
  | EngineCall.openErr _ :: cs => openCalls cs + 1
  | _ :: cs => openCalls cs

/-- Number of `Close` calls in a log, failed ones included. -/
def closeCalls : List EngineCall → Nat
  | [] => 0
  | EngineCall.close _ _ :: cs => closeCalls cs + 1
  | _ :: cs => closeCalls cs

/-- Number of container-creation transactions (`Update`) in a log. -/
def updateCalls : List EngineCall → Nat
  | [] => 0
  | EngineCall.update _ _ :: cs => updateCalls cs + 1
  | _ :: cs => updateCalls cs

/-- The first `N` calls of a run of `open()` calls whose `bolt.Open` would
succeed; `updErr i` is what container creation would answer call number `i`. -/
def opensOk (updErr : Nat → Option Err) (N : Nat) : List Op :=
  (List.range N).map fun i => Op.open none (updErr i)

/-- A run of `N` calls of `close()` whose engine `Close` would succeed. -/
def closesOk (N : Nat) : List Op :=
  List.replicate N (Op.close none)

/-- A run of `open()` calls, one per pair of engine answers. -/
def opensWith (outs : List (Option Err × Option Err)) : List Op :=
  outs.map fun o => Op.open o.1 o.2

/-- What the caller discipline guarantees between calls: `refCount` equals the
number of outstanding acquisitions, the mutex is free, and a positive count
means the store is marked open. -/
def Quiescent (held : Nat) (s : State) : Prop :=
  s.d.refCount = held ∧ s.d.lock = false ∧ (0 < s.d.refCount → s.d.opened = true)

/-- What holds between calls as long as no `Close` has failed: the discipline
invariant, every closed connection is one the engine already handed out, no
connection was closed twice, and while `opened` is true the stored connection
is a live one. -/
def LiveHandle (held : Nat) (s : State) : Prop :=
  Quiescent held s
    ∧ (∀ c ∈ closedConns s.eng.calls, c < s.eng.next)
    ∧ (closedConns s.eng.calls).Nodup
    ∧ (s.d.opened = true → s.d.handle ∉ closedConns s.eng.calls ∧ s.d.handle < s.eng.next)

/-- Number of `open()` calls of a run that returned nil; `rs` holds the results of `ops` in order. -/
def okOpens : List Op → List (Option Err) → Nat
  | Op.open _ _ :: ops, none :: rs => okOpens ops rs + 1
  | _ :: ops, _ :: rs => okOpens ops rs
  | _, _ => 0

/-- Number of `close()` calls in a run, whatever they returned. -/
def closeOps : List Op → Nat
  | [] => 0
  | Op.close _ :: ops => closeOps ops + 1
  | _ :: ops => closeOps ops

/-- The wrapping `fmt.Errorf(ctx + ": %s", err)`, as line 56 does it with the
context `create bucket`. -/
def errorf (ctx : String) (err : Err) : Err :=
  ctx ++ ": " ++ err

/-! ## Goroutines racing to open -/

/-- Positions inside the critical section of `open()`, from after `Lock()` to the deferred `Unlock()`. -/
def PC.inCrit : PC → Bool
  | PC.openRecheck => true
  | PC.openBolt => true
  | PC.openUpdate _ => true
  | PC.openSetHandle _ => true
  | PC.openStore => true
  | PC.openAdd => true
  | PC.openUnlock _ => true
  | _ => false

/-- The position right before `bolt.Open(...)` at line 48. -/
def PC.atBolt : PC → Bool
  | PC.openBolt => true
  | _ => false

/-- Positions between a successful `bolt.Open` and `db.opened.Store(true)`. -/
def PC.opening : PC → Bool
  | PC.openUpdate _ => true
  | PC.openSetHandle _ => true
  | PC.openStore => true
  | _ => false

/-- Positions of `open()` that are reached only once `opened` was read or stored
true, provided `bolt.Open` does not fail. -/
def PC.sawOpened : PC → Bool
  | PC.openFastAdd => true
  | PC.openAdd => true
  | PC.openUnlock _ => true
  | PC.done _ => true
  | _ => false

/-- Positions inside `close()`. -/
def PC.inClose : PC → Bool
  | PC.closeAdd => true
  | PC.closeHandle => true
  | PC.closeStore => true
  | _ => false

/-- Positions that carry an error back to the caller. -/
def PC.failing : PC → Bool
  | PC.openUnlock (some _) => true
  | PC.done (some _) => true
  | _ => false

/-- Number of goroutines inside the critical section. -/
def critCount (ts : List Thread) : Nat := ts.countP fun t => t.pc.inCrit

/-- Number of goroutines about to call `bolt.Open`. -/
def boltCount (ts : List Thread) : Nat := ts.countP fun t => t.pc.atBolt

/-- Number of goroutines that opened the store and have not yet set `opened`. -/
def openingCount (ts : List Thread) : Nat := ts.countP fun t => t.pc.opening

/-- What holds at every point of a race between calls of `open()` whose
`bolt.Open` would succeed, started on a handle with `opened` false, the mutex
free and `c0` calls of `bolt.Open` in the log: every goroutine is inside
`open()`, carries no error and has passed a point that needs `opened` only if
`opened` is true; the mutex is held exactly while one goroutine is in the
critical section; once `opened` is true nobody is about to open or opening;
and the log has one more `bolt.Open` exactly when the store is open or being
opened. -/
def Racing (c0 : Nat) (p : Pool) : Prop :=
  (∀ t ∈ p.threads, t.out.openErr = none ∧ t.pc.inClose = false ∧ t.pc.failing = false
      ∧ (t.pc.sawOpened = true → p.s.d.opened = true))
    ∧ critCount p.threads = (if p.s.d.lock = true then 1 else 0)
    ∧ (p.s.d.opened = true → boltCount p.threads = 0 ∧ openingCount p.threads = 0)
    ∧ openCalls p.s.eng.calls
        = c0 + (if p.s.d.opened = true then 1 else 0) + openingCount p.threads

/-- The largest number of atomic steps a goroutine at this position still takes before its call returns. -/
def PC.remaining : PC → Nat
  | PC.openLoad => 9
  | PC.openFastAdd => 1
  | PC.openLock => 8
  | PC.openRecheck => 7
  | PC.openBolt => 6
  | PC.openUpdate _ => 5
  | PC.openSetHandle _ => 4
  | PC.openStore => 3
  | PC.openAdd => 2
  | PC.openUnlock _ => 1
  | PC.closeAdd => 3
  | PC.closeHandle => 2
  | PC.closeStore => 1
  | PC.done _ => 0

/-- Whether the call has returned. -/
def PC.returned : PC → Bool
  | PC.done _ => true
  | _ => false

/-- The largest number of atomic steps the goroutines of a pool can still take together. -/
def stepsLeft (ts : List Thread) : Nat := (ts.map fun t => t.pc.remaining).sum

/-! ## The counter as 64 bits

`refCount` is an `atomic.Int64`: `Add` wraps around at the ends of the range.
The definitions above add without wrapping; the ones below wrap, and are the
same calls in every other respect.  The two agree as long as the count stays
inside the range, as it does on a fresh handle for fewer than `2^63` calls
(`open64_eq_open`, `close64_eq_close`, `runOps64_eq_runOps`). -/

/-- The largest `int64`, `2^63 - 1`. -/
def maxInt64 : Int := 9223372036854775807

/-- The smallest `int64`, `-2^63`. -/
def minInt64 : Int := -9223372036854775808

/-- The values an `int64` can hold. -/
def InInt64 (x : Int) : Prop := minInt64 ≤ x ∧ x ≤ maxInt64

/-- Membership in the `int64` range can be computed. -/
instance instDecidableInInt64 (x : Int) : Decidable (InInt64 x) :=
  inferInstanceAs (Decidable (minInt64 ≤ x ∧ x ≤ maxInt64))

/-- The `int64` that two's-complement arithmetic leaves when the exact result is `x`. -/
def wrap64 (x : Int) : Int :=
  (x + 9223372036854775808) % 18446744073709551616 - 9223372036854775808

/-- Atomic `db.refCount.Add(k)` on the 64-bit counter. -/
def State.addRef64 (k : Int) (s : State) : State :=
  { s with d := { s.d with refCount := wrap64 (s.d.refCount + k) } }

/-- The method `open` (db.go lines 35-66) with the 64-bit counter, run with no
other call in flight; arguments and result as for `db.open`. -/
def db.open64 (openErr updErr : Option Err) (s : State) : Option (Option Err × State) :=
  if s.d.opened then
    some (none, s.addRef64 1)
  else if s.d.lock then
    none
  else
    let s := s.setLock true
    if s.d.opened then
      some (none, s.setLock false)
    else
      match openErr with
      | some err => some (some err, (s.record (EngineCall.openErr err)).setLock false)
      | none =>
        let handler := s.eng.next
        let s := s.boltOpenOk
        let s := s.record (EngineCall.update handler updErr)
        let s := s.setHandle handler
        let s := s.storeOpened true
        let s := s.addRef64 1
        some (none, s.setLock false)

/-- The method `close` (db.go lines 69-79) with the 64-bit counter; argument and
result as for `db.close`. -/
def db.close64 (closeErr : Option Err) (s : State) : Option Err × State :=
  let s := s.addRef64 (-1)
  if s.d.refCount = 0 then
    match closeErr with
    | some err => (some err, s.record (EngineCall.close s.d.handle (some err)))
    | none => (none, (s.record (EngineCall.close s.d.handle none)).storeOpened false)
  else
    (none, s)

/-- Run one call alone, with the 64-bit counter. -/
def Op.run64 : Op → State → Option (Option Err × State)
  | Op.open openErr updErr, s => db.open64 openErr updErr s
  | Op.close closeErr, s => some (db.close64 closeErr s)

/-- Run calls one after another, with the 64-bit counter; the results come back oldest first. -/
def runOps64 : List Op → State → Option (List (Option Err) × State)
  | [], s => some ([], s)
  | op :: ops, s =>
    match op.run64 s with
    | none => none
    | some (r, s') =>
      match runOps64 ops s' with
      | none => none
      | some (rs, s'') => some (r :: rs, s'')

/-! ## The two views agree -/

theorem runSolo_open (openErr updErr closeErr : Option Err) (s : State) :
    runSolo { openErr := openErr, updErr := updErr, closeErr := closeErr } 10 PC.openLoad s
      = db.open openErr updErr s := by
  cases hop : s.d.opened <;> cases hl : s.d.lock <;> cases openErr <;>
    simp [runSolo, step, db.open, hop, hl, State.setLock, State.addRef, State.storeOpened,
      State.setHandle, State.record, State.boltOpenOk]

theorem runSolo_close (openErr updErr closeErr : Option Err) (s : State) :
    runSolo { openErr := openErr, updErr := updErr, closeErr := closeErr } 10 PC.closeAdd s
      = some (db.close closeErr s) := by
  by_cases h : s.d.refCount + -1 = 0 <;> cases closeErr <;>
    simp [runSolo, step, db.close, h, State.addRef, State.storeOpened, State.record]

/-! ## Single calls -/

/-- While `opened` is true, `open()` is the lock-free fast path. -/
theorem open_of_opened (openErr updErr : Option Err) (s : State) (h : s.d.opened = true) :
    db.open openErr updErr s = some (none, s.addRef 1) := by
  simp [db.open, h]

/-- With `opened` false and the mutex free, a failing `bolt.Open` is all that happens. -/
theorem open_of_closed_err (e : Err) (updErr : Option Err) (s : State)
    (h : s.d.opened = false) (hl : s.d.lock = false) :
    db.open (some e) updErr s = some (some e, s.record (EngineCall.openErr e)) := by
  obtain ⟨⟨hd, op, rc, lk⟩, eng⟩ := s
  simp only at h hl
  subst h hl
  simp [db.open, State.setLock, State.record]

/-- With `opened` false and the mutex free, a successful `bolt.Open` is followed
by `Update`, the three stores and the unlock. -/
theorem open_of_closed_ok (updErr : Option Err) (s : State)
    (h : s.d.opened = false) (hl : s.d.lock = false) :
    db.open none updErr s = some (none,
      { d := { handle := s.eng.next, opened := true, refCount := s.d.refCount + 1, lock := false },
        eng := { next := s.eng.next + 1,
                 calls := s.eng.calls ++
                   [EngineCall.openOk s.eng.next, EngineCall.update s.eng.next updErr] } }) := by
  obtain ⟨⟨hd, op, rc, lk⟩, eng⟩ := s
  simp only at h hl
  subst h hl
  simp [db.open, State.setLock, State.record, State.boltOpenOk, State.setHandle,
    State.storeOpened, State.addRef]

/-- When the count does not drop to zero, `close()` only decrements. -/
theorem close_of_ne_one (closeErr : Option Err) (s : State) (h : s.d.refCount ≠ 1) :
    db.close closeErr s = (none, s.addRef (-1)) := by
  have h0 : ¬ (s.d.refCount + -1 = 0) := by omega
  simp [db.close, State.addRef, h0]

/-- When the count drops to zero and `Close` succeeds, `opened` is cleared. -/
theorem close_of_one_ok (s : State) (h : s.d.refCount = 1) :
    db.close none s = (none,
      { d := { s.d with refCount := 0, opened := false },
        eng := { s.eng with calls := s.eng.calls ++ [EngineCall.close s.d.handle none] } }) := by
  simp [db.close, State.addRef, State.record, State.storeOpened, h]

/-- When the count drops to zero and `Close` fails, the early return leaves `opened` as it was. -/
theorem close_of_one_err (e : Err) (s : State) (h : s.d.refCount = 1) :
    db.close (some e) s = (some e,
      { d := { s.d with refCount := 0 },
        eng := { s.eng with calls := s.eng.calls ++ [EngineCall.close s.d.handle (some e)] } }) := by
  simp [db.close, State.addRef, State.record, h]

/-- The re-check path of `open()` (line 44 reads `opened` true): the goroutine
unlocks and returns nil, and `refCount` is not touched. -/
theorem recheck_path_no_increment (o : Outcome) (s : State) (h : s.d.opened = true) :
    runSolo o 2 PC.openRecheck s = some (none, s.setLock false) := by
  simp [runSolo, step, h]

/-! ## Claims about single calls -/

/-- C1 (fails on the code): two goroutines call `open()` on a fresh handle and
both read `opened` false at line 36.  The first opens the store and returns
nil with `refCount` 1.  The second then takes the mutex, reads `opened` true at
line 44 and returns nil as well, and `refCount` is still 1: that successful
return did not add one. -/
theorem C1_recheck_return_does_not_count :
    ∃ p1 p2 : Pool,
      Pool.exec [0, 1, 0, 0, 0, 0, 0, 0, 0, 0]
          { threads := [Thread.callOpen none none, Thread.callOpen none none],
            s := State.fresh } = some p1
        ∧ p1.threads.map Thread.pc = [PC.done none, PC.openLock]
        ∧ p1.s.d.refCount = 1
        ∧ Pool.exec [1, 1, 1] p1 = some p2
        ∧ p2.threads.map Thread.pc = [PC.done none, PC.done none]
        ∧ p2.s.d.refCount = 1
        ∧ p2.s.d.opened = true := by
  refine ⟨_, _, rfl, ?_, ?_, rfl, ?_, ?_, ?_⟩ <;> decide

/-- C2 (fails on the code): on a handle opened once (`refCount` 1), a `close()`
whose engine `Close` fails returns that error with `refCount` 0, but `opened`
is still true: the early return at line 72 skips line 75. -/
theorem C2_failed_close_leaves_opened :
    ∃ s1 s2 : State,
      db.open none none State.fresh = some (none, s1)
        ∧ s1.d.refCount = 1
        ∧ db.close (some "close failed") s1 = (some "close failed", s2)
        ∧ s2.d.refCount = 0
        ∧ s2.d.opened = true := by
  refine ⟨_, _, rfl, ?_, rfl, ?_, ?_⟩ <;> decide

/-- C4: with `opened` false and the mutex free, if `bolt.Open` fails with `e`
then `open()` returns `e`, the handle (connection, `opened`, `refCount`, mutex)
is exactly as before, and the only engine call made is the failed `bolt.Open`:
no container creation. -/
theorem C4_open_failure_leaves_state (e : Err) (updErr : Option Err) (s : State)
    (h : s.d.opened = false) (hl : s.d.lock = false) :
    ∃ s', db.open (some e) updErr s = some (some e, s')
      ∧ s'.d = s.d
      ∧ s'.d.lock = false
      ∧ s'.eng.calls = s.eng.calls ++ [EngineCall.openErr e]
      ∧ s'.eng.next = s.eng.next := by
  refine ⟨_, open_of_closed_err e updErr s h hl, rfl, hl, rfl, rfl⟩

/-- The failed-open statement at a fresh handle whose `bolt.Open` times out. -/
theorem C4_open_failure_leaves_state_witness :
    ∃ s', db.open (some "timeout") none State.fresh = some (some "timeout", s')
      ∧ s'.d = State.fresh.d
      ∧ s'.d.lock = false
      ∧ s'.eng.calls = State.fresh.eng.calls ++ [EngineCall.openErr "timeout"]
      ∧ s'.eng.next = State.fresh.eng.next :=
  C4_open_failure_leaves_state "timeout" none State.fresh rfl rfl

/-! ## Sequences of calls -/

theorem addRef_addRef (a b : Int) (s : State) : (s.addRef a).addRef b = s.addRef (a + b) := by
  simp [State.addRef, add_assoc]

theorem addRef_zero (s : State) : s.addRef 0 = s := by
  simp [State.addRef]

theorem runOps_append (xs ys : List Op) (s : State) :
    runOps (xs ++ ys) s =
      match runOps xs s with
      | none => none
      | some (rs, s') =>
        match runOps ys s' with
        | none => none
        | some (rs', s'') => some (rs ++ rs', s'') := by
  induction xs generalizing s with
  | nil => simp only [List.nil_append, runOps]; cases runOps ys s <;> simp
  | cons x xs ih =>
    rw [List.cons_append, runOps, runOps]
    cases x.run s with
    | none => rfl
    | some r =>
      obtain ⟨r, s1⟩ := r
      simp only
      rw [ih s1]
      cases runOps xs s1 with
      | none => rfl
      | some q =>
        obtain ⟨rs, s2⟩ := q
        simp only
        cases runOps ys s2 with
        | none => rfl
        | some q2 => rfl

/-- Any run of `open()` calls on an open store takes the fast path every time. -/
theorem runOps_opens_of_opened (outs : List (Option Err × Option Err)) (s : State)
    (h : s.d.opened = true) :
    runOps (opensWith outs) s = some (List.replicate outs.length none, s.addRef outs.length) := by
  induction outs generalizing s with
  | nil => simp [opensWith, runOps, addRef_zero]
  | cons o outs ih =>
    have h1 : (s.addRef 1).d.opened = true := h
    have := ih (s.addRef 1) h1
    simp only [opensWith] at this
    simp [opensWith, runOps, Op.run, open_of_opened _ _ s h, this, addRef_addRef,
      List.replicate_succ, add_comm]

/-- A run of `close()` calls that stays above zero only decrements. -/
theorem runOps_closes_above (closeErr : Option Err) (k : Nat) (s : State)
    (h : (k : Int) < s.d.refCount) :
    runOps (List.replicate k (Op.close closeErr)) s
      = some (List.replicate k none, s.addRef (-(k : Int))) := by
  induction k generalizing s with
  | zero => simp [runOps, addRef_zero]
  | succ k ih =>
    have hne : s.d.refCount ≠ 1 := by push_cast at h; omega
    have h1 : (k : Int) < (s.addRef (-1)).d.refCount := by
      simp only [State.addRef]; push_cast at h; omega
    simp only [List.replicate_succ, runOps, Op.run, close_of_ne_one closeErr s hne, ih _ h1,
      addRef_addRef]
    congr 3
    push_cast
    ring

/-- The first call of the run is split off; the others form a run of their own. -/
theorem opensOk_succ (updErr : Nat → Option Err) (n : Nat) :
    opensOk updErr (n + 1) = Op.open none (updErr 0)
      :: opensWith ((List.range n).map fun i => (none, updErr (i + 1))) := by
  simp [opensOk, opensWith, List.range_succ_eq_map, Function.comp_def]

/-- On a closed handle, `n + 1` calls of `open()` whose `bolt.Open` succeeds:
the first opens the store, the others only count. -/
theorem runOps_opensOk (updErr : Nat → Option Err) (n : Nat) (s : State)
    (h : s.d.opened = false) (hl : s.d.lock = false) :
    runOps (opensOk updErr (n + 1)) s = some (List.replicate (n + 1) none,
      { d := { handle := s.eng.next, opened := true, refCount := s.d.refCount + 1 + n,
               lock := false },
        eng := { next := s.eng.next + 1,
                 calls := s.eng.calls ++
                   [EngineCall.openOk s.eng.next, EngineCall.update s.eng.next (updErr 0)] } }) := by
  rw [opensOk_succ, runOps, Op.run, open_of_closed_ok (updErr 0) s h hl]
  simp only
  rw [runOps_opens_of_opened _ _ rfl]
  simp [State.addRef, List.replicate_succ]

/-- After `n + 1` opens and `n` closes the store is open with one reference left. -/
theorem runOps_opens_closes (updErr : Nat → Option Err) (n : Nat) (s : State)
    (h : s.d.opened = false) (hl : s.d.lock = false) (hr : 0 ≤ s.d.refCount) :
    runOps (opensOk updErr (n + 1) ++ closesOk n) s = some (List.replicate (n + 1 + n) none,
      { d := { handle := s.eng.next, opened := true, refCount := s.d.refCount + 1, lock := false },
        eng := { next := s.eng.next + 1,
                 calls := s.eng.calls ++
                   [EngineCall.openOk s.eng.next, EngineCall.update s.eng.next (updErr 0)] } }) := by
  rw [runOps_append, runOps_opensOk updErr n s h hl]
  simp only [closesOk]
  rw [runOps_closes_above none n _ (by simp only; omega)]
  simp [State.addRef, List.replicate_add]

theorem openCalls_append (xs ys : List EngineCall) :
    openCalls (xs ++ ys) = openCalls xs + openCalls ys := by
  induction xs with
  | nil => simp [openCalls]
  | cons x xs ih => cases x <;> simp [openCalls, ih, Nat.add_right_comm]

theorem closeCalls_append (xs ys : List EngineCall) :
    closeCalls (xs ++ ys) = closeCalls xs + closeCalls ys := by
  induction xs with
  | nil => simp [closeCalls]
  | cons x xs ih => cases x <;> simp [closeCalls, ih, Nat.add_right_comm]

theorem updateCalls_append (xs ys : List EngineCall) :
    updateCalls (xs ++ ys) = updateCalls xs + updateCalls ys := by
  induction xs with
  | nil => simp [updateCalls]
  | cons x xs ih => cases x <;> simp [updateCalls, ih, Nat.add_right_comm]

theorem closedConns_append (xs ys : List EngineCall) :
    closedConns (xs ++ ys) = closedConns xs ++ closedConns ys := by
  induction xs with
  | nil => simp [closedConns]
  | cons x xs ih => cases x <;> simp [closedConns, ih]

/-- C3: for `N ≥ 1`, on a freshly constructed handle, `N` calls of `open()`
followed by `N` calls of `close()`, with `bolt.Open` and `Close` succeeding,
all return nil.  `bolt.Open` is called once, in the first `open()`; after the
`N` opens and `N - 1` closes the log still holds that one `bolt.Open` (and its
`Update`) and no `Close`; the `N`-th `close()` adds the one `Close`, and leaves
`opened` false and `refCount` zero. -/
theorem C3_open_once_close_once (N : Nat) (hN : 1 ≤ N) (updErr : Nat → Option Err)
    (E : Engine) :
    ∃ s1 s2 s3 : State,
      runOps (opensOk updErr 1) { d := newDB, eng := E } = some ([none], s1)
        ∧ s1.eng.calls = E.calls ++ [EngineCall.openOk E.next, EngineCall.update E.next (updErr 0)]
        ∧ runOps (opensOk updErr N ++ closesOk (N - 1)) { d := newDB, eng := E }
            = some (List.replicate (N + (N - 1)) none, s2)
        ∧ s2.eng.calls = E.calls ++ [EngineCall.openOk E.next, EngineCall.update E.next (updErr 0)]
        ∧ s2.d.opened = true
        ∧ s2.d.refCount = 1
        ∧ runOps (opensOk updErr N ++ closesOk N) { d := newDB, eng := E }
            = some (List.replicate (N + N) none, s3)
        ∧ s3.eng.calls = E.calls ++ [EngineCall.openOk E.next, EngineCall.update E.next (updErr 0),
            EngineCall.close E.next none]
        ∧ openCalls s3.eng.calls = openCalls E.calls + 1
        ∧ closeCalls s3.eng.calls = closeCalls E.calls + 1
        ∧ s3.d.opened = false
        ∧ s3.d.refCount = 0 := by
  obtain ⟨n, rfl⟩ : ∃ n, N = n + 1 := ⟨N - 1, by omega⟩
  have h0 : ({ d := newDB, eng := E } : State).d.opened = false := rfl
  have hl : ({ d := newDB, eng := E } : State).d.lock = false := rfl
  have hA := runOps_opensOk updErr 0 _ h0 hl
  have hB := runOps_opens_closes updErr n _ h0 hl (le_of_eq rfl)
  have hB' : runOps (opensOk updErr (n + 1) ++ closesOk (n + 1 - 1)) { d := newDB, eng := E }
      = some (List.replicate (n + 1 + (n + 1 - 1)) none,
          { d := { handle := E.next, opened := true, refCount := 1, lock := false },
            eng := { next := E.next + 1,
                     calls := E.calls ++ [EngineCall.openOk E.next,
                        EngineCall.update E.next (updErr 0)] } }) := by
    simpa [newDB] using hB
  have hC : runOps (opensOk updErr (n + 1) ++ closesOk (n + 1)) { d := newDB, eng := E }
      = some (List.replicate (n + 1 + (n + 1)) none,
          { d := { handle := E.next, opened := false, refCount := 0, lock := false },
            eng := { next := E.next + 1,
                     calls := (E.calls ++ [EngineCall.openOk E.next,
                        EngineCall.update E.next (updErr 0)]) ++
                        [EngineCall.close E.next none] } }) := by
    have hsplit : closesOk (n + 1) = closesOk n ++ [Op.close none] := by
      simp [closesOk, List.replicate_succ']
    rw [hsplit, ← List.append_assoc, runOps_append, hB]
    simp only [runOps, Op.run]
    rw [close_of_one_ok _ (by simp [newDB])]
    simp [← List.replicate_succ', ← add_assoc]
  refine ⟨_, _, _, hA, rfl, hB', rfl, rfl, rfl, hC, ?_, ?_, ?_, rfl, rfl⟩
  · simp
  · simp [openCalls_append, openCalls]
  · simp [closeCalls_append, closeCalls]

/-- The open-once, close-once statement for two opens and two closes on a fresh engine. -/
theorem C3_open_once_close_once_witness :
    1 ≤ 2 ∧ ∃ s1 s2 s3 : State,
      runOps (opensOk (fun _ => none) 1) { d := newDB, eng := Engine.fresh } = some ([none], s1)
        ∧ s1.eng.calls = Engine.fresh.calls ++
            [EngineCall.openOk Engine.fresh.next, EngineCall.update Engine.fresh.next none]
        ∧ runOps (opensOk (fun _ => none) 2 ++ closesOk (2 - 1)) { d := newDB, eng := Engine.fresh }
            = some (List.replicate (2 + (2 - 1)) none, s2)
        ∧ s2.eng.calls = Engine.fresh.calls ++
            [EngineCall.openOk Engine.fresh.next, EngineCall.update Engine.fresh.next none]
        ∧ s2.d.opened = true
        ∧ s2.d.refCount = 1
        ∧ runOps (opensOk (fun _ => none) 2 ++ closesOk 2) { d := newDB, eng := Engine.fresh }
            = some (List.replicate (2 + 2) none, s3)
        ∧ s3.eng.calls = Engine.fresh.calls ++
            [EngineCall.openOk Engine.fresh.next, EngineCall.update Engine.fresh.next none,
              EngineCall.close Engine.fresh.next none]
        ∧ openCalls s3.eng.calls = openCalls Engine.fresh.calls + 1
        ∧ closeCalls s3.eng.calls = closeCalls Engine.fresh.calls + 1
        ∧ s3.d.opened = false
        ∧ s3.d.refCount = 0 :=
  ⟨by decide, C3_open_once_close_once 2 (by decide) (fun _ => none) Engine.fresh⟩

/-- The discipline invariant survives every call, and `held` follows the calls. -/
theorem runMatched_quiescent (ops : List Op) (held : Nat) (s : State) (held' : Nat) (s' : State)
    (hq : Quiescent held s) (hrun : runMatched ops held s = some (held', s')) :
    Quiescent held' s' := by
  induction ops generalizing held s with
  | nil =>
    simp only [runMatched, Option.some.injEq, Prod.mk.injEq] at hrun
    obtain ⟨rfl, rfl⟩ := hrun
    exact hq
  | cons op ops ih =>
    obtain ⟨hrc, hlk, hop⟩ := hq
    cases op with
    | «open» openErr updErr =>
      cases hopened : s.d.opened with
      | true =>
        rw [runMatched, open_of_opened _ _ s hopened] at hrun
        simp only at hrun
        refine ih (held + 1) (s.addRef 1) ⟨?_, hlk, fun _ => hopened⟩ hrun
        simp only [State.addRef, hrc]; push_cast; rfl
      | false =>
        cases openErr with
        | some e =>
          rw [runMatched, open_of_closed_err e updErr s hopened hlk] at hrun
          simp only at hrun
          exact ih held (s.record (EngineCall.openErr e)) ⟨hrc, hlk, hop⟩ hrun
        | none =>
          rw [runMatched, open_of_closed_ok updErr s hopened hlk] at hrun
          simp only at hrun
          refine ih (held + 1) _ ⟨?_, rfl, fun _ => rfl⟩ hrun
          simp only [hrc]; push_cast; rfl
    | close closeErr =>
      cases held with
      | zero => simp [runMatched] at hrun
      | succ h =>
        rw [runMatched] at hrun
        refine ih h _ ?_ hrun
        by_cases h1 : s.d.refCount = 1
        · have hh : (h : Int) = 0 := by rw [h1] at hrc; push_cast at hrc; omega
          cases closeErr with
          | some e =>
            rw [close_of_one_err e s h1]
            exact ⟨hh.symm, hlk, fun hpos => absurd hpos (by simp)⟩
          | none =>
            rw [close_of_one_ok s h1]
            exact ⟨hh.symm, hlk, fun hpos => absurd hpos (by simp)⟩
        · rw [close_of_ne_one closeErr s h1]
          refine ⟨?_, hlk, fun hpos => hop ?_⟩
          · simp only [State.addRef, hrc]; push_cast; ring
          · simp only [State.addRef] at hpos; omega

/-- A fresh handle satisfies the discipline invariant with nothing held. -/
theorem quiescent_fresh : Quiescent 0 State.fresh := by
  refine ⟨rfl, rfl, fun h => absurd h (by decide)⟩

/-- C5: in every state reached from the fresh handle by calls of `open()` and
`close()` in which each `close()` releases an earlier successful `open()` not
yet released, whatever the engine answers: `refCount` is not negative, it is
at most (in fact equal to) the number of outstanding acquisitions, and a
positive `refCount` means `opened` is true. -/
theorem C5_refcount_invariants (ops : List Op) (held : Nat) (s : State)
    (hrun : runMatched ops 0 State.fresh = some (held, s)) :
    0 ≤ s.d.refCount ∧ s.d.refCount ≤ held ∧ (0 < s.d.refCount → s.d.opened = true) := by
  obtain ⟨hrc, _, hop⟩ := runMatched_quiescent ops 0 State.fresh held s quiescent_fresh hrun
  exact ⟨by rw [hrc]; exact Int.natCast_nonneg held, le_of_eq hrc, hop⟩

/-- The invariants after a disciplined run with a failed open and two failed closes. -/
theorem C5_refcount_invariants_witness :
    ∃ held s,
      runMatched [Op.open (some "e") none, Op.open none (some "u"), Op.open none none,
          Op.close (some "c"), Op.close (some "c"), Op.open none none] 0 State.fresh
        = some (held, s)
      ∧ 0 ≤ s.d.refCount ∧ s.d.refCount ≤ held ∧ (0 < s.d.refCount → s.d.opened = true) :=
  ⟨_, _, rfl, C5_refcount_invariants
    [Op.open (some "e") none, Op.open none (some "u"), Op.open none none,
      Op.close (some "c"), Op.close (some "c"), Op.open none none] _ _ rfl⟩

/-- With the mutex free, `open()` returns. -/
theorem open_returns (openErr updErr : Option Err) (s : State) (hl : s.d.lock = false) :
    (db.open openErr updErr s).isSome = true := by
  cases h : s.d.opened with
  | true => simp [open_of_opened _ _ s h]
  | false =>
    cases openErr with
    | some e => simp [open_of_closed_err e updErr s h hl]
    | none => simp [open_of_closed_ok updErr s h hl]

/-- C7: with `opened` false (and the mutex free), `open()` calls `bolt.Open`
exactly once and returns what it returned.  There is no failure latch: after
an `open()` that failed with `e`, `opened` is still false and the next
`open()` calls `bolt.Open` once more.  The store reopens: after a `close()`
that took `refCount` from 1 to 0 and closed the store, the next `open()` makes
a new `bolt.Open` call, stores the new connection and ends with `opened` true
and `refCount` 1. -/
theorem C7_closed_handle_opens_again (openErr updErr : Option Err) (e : Err) (s t : State)
    (h : s.d.opened = false) (hl : s.d.lock = false)
    (ht : t.d.refCount = 1) (htl : t.d.lock = false) :
    (∃ s', db.open openErr updErr s = some (openErr, s')
        ∧ openCalls s'.eng.calls = openCalls s.eng.calls + 1
        ∧ s'.d.opened = openErr.isNone)
    ∧ (∃ s1 s2, db.open (some e) updErr s = some (some e, s1)
        ∧ s1.d.opened = false
        ∧ db.open openErr updErr s1 = some (openErr, s2)
        ∧ openCalls s2.eng.calls = openCalls s.eng.calls + 2
        ∧ s2.d.opened = openErr.isNone)
    ∧ (∃ t1 t2, db.close none t = (none, t1)
        ∧ t1.d.opened = false
        ∧ t1.d.refCount = 0
        ∧ db.open none updErr t1 = some (none, t2)
        ∧ t2.eng.calls = t.eng.calls ++ [EngineCall.close t.d.handle none,
            EngineCall.openOk t.eng.next, EngineCall.update t.eng.next updErr]
        ∧ openCalls t2.eng.calls = openCalls t.eng.calls + 1
        ∧ t2.d.handle = t.eng.next
        ∧ t2.d.opened = true
        ∧ t2.d.refCount = 1) := by
  have hA : ∀ u : State, u.d.opened = false → u.d.lock = false →
      ∃ u', db.open openErr updErr u = some (openErr, u')
        ∧ openCalls u'.eng.calls = openCalls u.eng.calls + 1
        ∧ u'.d.opened = openErr.isNone := by
    intro u hu hul
    cases openErr with
    | some e' =>
      exact ⟨_, open_of_closed_err e' updErr u hu hul,
        by simp [State.record, openCalls_append, openCalls], by simpa using hu⟩
    | none =>
      exact ⟨_, open_of_closed_ok updErr u hu hul,
        by simp [openCalls_append, openCalls], rfl⟩
  refine ⟨hA s h hl, ?_, ?_⟩
  · obtain ⟨s2, h2, hc2, ho2⟩ := hA (s.record (EngineCall.openErr e)) h hl
    refine ⟨_, s2, open_of_closed_err e updErr s h hl, h, h2, ?_, ho2⟩
    rw [hc2]
    simp [State.record, openCalls_append, openCalls]
  · refine ⟨_, _, close_of_one_ok t ht, rfl, rfl,
      open_of_closed_ok updErr _ rfl htl, ?_, ?_, rfl, rfl, rfl⟩
    · simp
    · simp [openCalls_append, openCalls]

/-- The reopening statement on a fresh handle and on a handle opened once. -/
theorem C7_closed_handle_opens_again_witness :
    (State.fresh.d.opened = false ∧ State.fresh.d.lock = false
      ∧ ({ d := { handle := 1, opened := true, refCount := 1, lock := false },
           eng := { next := 2, calls := [EngineCall.openOk 1, EngineCall.update 1 none] } }
          : State).d.refCount = 1)
    ∧ (∃ t1 t2, db.close none
          { d := { handle := 1, opened := true, refCount := 1, lock := false },
            eng := { next := 2, calls := [EngineCall.openOk 1, EngineCall.update 1 none] } }
          = (none, t1)
        ∧ t1.d.opened = false
        ∧ t1.d.refCount = 0
        ∧ db.open none none t1 = some (none, t2)
        ∧ t2.eng.calls = [EngineCall.openOk 1, EngineCall.update 1 none] ++
            [EngineCall.close 1 none, EngineCall.openOk 2, EngineCall.update 2 none]
        ∧ openCalls t2.eng.calls
            = openCalls [EngineCall.openOk 1, EngineCall.update 1 none] + 1
        ∧ t2.d.handle = 2
        ∧ t2.d.opened = true
        ∧ t2.d.refCount = 1) :=
  ⟨⟨rfl, rfl, rfl⟩,
    (C7_closed_handle_opens_again none none "timeout" State.fresh
      { d := { handle := 1, opened := true, refCount := 1, lock := false },
        eng := { next := 2, calls := [EngineCall.openOk 1, EngineCall.update 1 none] } }
      rfl rfl rfl rfl).2.2⟩

/-- C10 (fails on the code): every `close()` below releases an earlier
successful `open()`.  The first `Close` on connection 1 fails, so `opened`
stays true; the next `open()` takes the fast path without calling
`bolt.Open`, and the `close()` that releases it calls `Close` on connection 1
a second time. -/
theorem C10_close_called_twice_on_one_connection :
    ∃ s : State,
      runMatched [Op.open none none, Op.close (some "close failed"), Op.open none none,
          Op.close none] 0 State.fresh = some (0, s)
        ∧ s.eng.calls = [EngineCall.openOk 1, EngineCall.update 1 none,
            EngineCall.close 1 (some "close failed"), EngineCall.close 1 none]
        ∧ closedConns s.eng.calls = [1, 1]
        ∧ openCalls s.eng.calls = 1 := by
  refine ⟨_, rfl, ?_, ?_, ?_⟩ <;> decide

/-- As long as every `Close` succeeds, the live-handle invariant survives every call. -/
theorem runMatched_liveHandle (ops : List Op) (held : Nat) (s : State) (held' : Nat) (s' : State)
    (hok : ∀ closeErr, Op.close closeErr ∈ ops → closeErr = none)
    (hq : LiveHandle held s) (hrun : runMatched ops held s = some (held', s')) :
    LiveHandle held' s' := by
  induction ops generalizing held s with
  | nil =>
    simp only [runMatched, Option.some.injEq, Prod.mk.injEq] at hrun
    obtain ⟨rfl, rfl⟩ := hrun
    exact hq
  | cons op ops ih =>
    have hok' : ∀ closeErr, Op.close closeErr ∈ ops → closeErr = none :=
      fun ce hce => hok ce (List.mem_cons_of_mem _ hce)
    obtain ⟨⟨hrc, hlk, hop⟩, hlt, hnd, hlive⟩ := hq
    cases op with
    | «open» openErr updErr =>
      cases hopened : s.d.opened with
      | true =>
        rw [runMatched, open_of_opened _ _ s hopened] at hrun
        simp only at hrun
        refine ih (held + 1) (s.addRef 1) hok' ⟨⟨?_, hlk, fun _ => hopened⟩, hlt, hnd, hlive⟩ hrun
        simp only [State.addRef, hrc]; push_cast; rfl
      | false =>
        cases openErr with
        | some e =>
          rw [runMatched, open_of_closed_err e updErr s hopened hlk] at hrun
          simp only at hrun
          refine ih held (s.record (EngineCall.openErr e)) hok' ⟨⟨hrc, hlk, hop⟩, ?_, ?_, ?_⟩ hrun
          · simpa [State.record, closedConns_append, closedConns] using hlt
          · simpa [State.record, closedConns_append, closedConns] using hnd
          · intro ho
            rw [show (s.record (EngineCall.openErr e)).d.opened = s.d.opened from rfl, hopened] at ho
            exact absurd ho (by decide)
        | none =>
          rw [runMatched, open_of_closed_ok updErr s hopened hlk] at hrun
          simp only at hrun
          refine ih (held + 1) _ hok' ⟨⟨?_, rfl, fun _ => rfl⟩, ?_, ?_, ?_⟩ hrun
          · simp only [hrc]; push_cast; rfl
          · intro c hc
            have : c ∈ closedConns s.eng.calls := by
              simpa [closedConns_append, closedConns] using hc
            exact Nat.lt_succ_of_lt (hlt c this)
          · simpa [closedConns_append, closedConns] using hnd
          · intro _
            refine ⟨?_, Nat.lt_succ_self _⟩
            intro hc
            have : s.eng.next ∈ closedConns s.eng.calls := by
              simpa [closedConns_append, closedConns] using hc
            exact absurd (hlt _ this) (lt_irrefl _)
    | close closeErr =>
      have hce : closeErr = none := hok closeErr (List.mem_cons_self _ _)
      subst hce
      cases held with
      | zero => simp [runMatched] at hrun
      | succ h =>
        rw [runMatched] at hrun
        refine ih h _ hok' ?_ hrun
        by_cases h1 : s.d.refCount = 1
        · have hh : (h : Int) = 0 := by rw [h1] at hrc; push_cast at hrc; omega
          have hopen : s.d.opened = true := hop (by rw [h1]; decide)
          obtain ⟨hnotin, hhlt⟩ := hlive hopen
          rw [close_of_one_ok s h1]
          refine ⟨⟨hh.symm, hlk, fun hpos => absurd hpos (by simp)⟩, ?_, ?_, ?_⟩
          · intro c hc
            simp only [closedConns_append, closedConns, List.mem_append,
              List.mem_singleton] at hc
            rcases hc with hc | hc
            · exact hlt c hc
            · rw [hc]; exact hhlt
          · simp only [closedConns_append, closedConns]
            exact List.Nodup.append hnd (List.nodup_singleton _)
              (by
                intro a ha hb
                rw [List.mem_singleton] at hb
                exact hnotin (hb ▸ ha))
          · intro ho
            exact absurd ho (by simp)
        · rw [close_of_ne_one none s h1]
          refine ⟨⟨?_, hlk, fun hpos => hop ?_⟩, hlt, hnd, hlive⟩
          · simp only [State.addRef, hrc]; push_cast; ring
          · simp only [State.addRef] at hpos; omega

/-- A fresh handle satisfies the live-handle invariant. -/
theorem liveHandle_fresh : LiveHandle 0 State.fresh := by
  refine ⟨quiescent_fresh, ?_, ?_, ?_⟩
  · intro c hc; simp [State.fresh, Engine.fresh, closedConns] at hc
  · simp [State.fresh, Engine.fresh, closedConns]
  · intro ho; exact absurd ho (by decide)

/-- As long as every `Close` succeeds, calls that follow the discipline never
close one connection twice. -/
theorem no_double_close_while_close_succeeds (ops : List Op) (held : Nat) (s : State)
    (hok : ∀ closeErr, Op.close closeErr ∈ ops → closeErr = none)
    (hrun : runMatched ops 0 State.fresh = some (held, s)) :
    (closedConns s.eng.calls).Nodup :=
  (runMatched_liveHandle ops 0 State.fresh held s hok liveHandle_fresh hrun).2.2.1

/-! ## Counting successful opens and closes -/

/-- Calls run one after another from a state whose mutex is free all return,
leave the mutex free, and move `refCount` by the successful opens minus the closes. -/
theorem runOps_refCount (ops : List Op) (s : State) (hl : s.d.lock = false) :
    ∃ rs s', runOps ops s = some (rs, s')
      ∧ rs.length = ops.length
      ∧ s'.d.lock = false
      ∧ s'.d.refCount = s.d.refCount + okOpens ops rs - closeOps ops := by
  induction ops generalizing s with
  | nil => exact ⟨[], s, rfl, rfl, hl, by simp [okOpens, closeOps]⟩
  | cons op ops ih =>
    cases op with
    | «open» openErr updErr =>
      cases hopened : s.d.opened with
      | true =>
        obtain ⟨rs, s', hrun, hlen, hl', hrc⟩ := ih (s.addRef 1) hl
        refine ⟨none :: rs, s', ?_, by simp [hlen], hl', ?_⟩
        · simp [runOps, Op.run, open_of_opened _ _ s hopened, hrun]
        · rw [hrc]; simp only [State.addRef, okOpens, closeOps]; push_cast; ring
      | false =>
        cases openErr with
        | some e =>
          obtain ⟨rs, s', hrun, hlen, hl', hrc⟩ := ih (s.record (EngineCall.openErr e)) hl
          refine ⟨some e :: rs, s', ?_, by simp [hlen], hl', ?_⟩
          · simp [runOps, Op.run, open_of_closed_err e updErr s hopened hl, hrun]
          · rw [hrc]; simp only [State.record, okOpens, closeOps]
        | none =>
          obtain ⟨rs, s', hrun, hlen, hl', hrc⟩ := ih
            { d := { handle := s.eng.next, opened := true, refCount := s.d.refCount + 1,
                     lock := false },
              eng := { next := s.eng.next + 1,
                       calls := s.eng.calls ++
                         [EngineCall.openOk s.eng.next, EngineCall.update s.eng.next updErr] } } rfl
          refine ⟨none :: rs, s', ?_, by simp [hlen], hl', ?_⟩
          · simp [runOps, Op.run, open_of_closed_ok updErr s hopened hl, hrun]
          · rw [hrc]; simp only [okOpens, closeOps]; push_cast; ring
    | close closeErr =>
      have hstep : (db.close closeErr s).2.d.lock = false
          ∧ (db.close closeErr s).2.d.refCount = s.d.refCount - 1 := by
        by_cases h1 : s.d.refCount = 1
        · cases closeErr with
          | some e => rw [close_of_one_err e s h1]; exact ⟨hl, by simp [h1]⟩
          | none => rw [close_of_one_ok s h1]; exact ⟨hl, by simp [h1]⟩
        · rw [close_of_ne_one closeErr s h1]; exact ⟨hl, rfl⟩
      obtain ⟨rs, s', hrun, hlen, hl', hrc⟩ := ih (db.close closeErr s).2 hstep.1
      refine ⟨(db.close closeErr s).1 :: rs, s', ?_, by simp [hlen], hl', ?_⟩
      · simp [runOps, Op.run, hrun]
      · rw [hrc, hstep.2]
        cases hr : (db.close closeErr s).1 <;> simp only [okOpens, closeOps] <;> push_cast <;> ring

/-- C14: any calls of `open()` and `close()` run one after another on a fresh
handle, with no discipline and whatever the engine answers, all return, and
`refCount` at the end is the number of `open()` calls that returned nil minus
the number of `close()` calls made. -/
theorem C14_refcount_is_opens_minus_closes (ops : List Op) :
    ∃ rs s, runOps ops State.fresh = some (rs, s)
      ∧ rs.length = ops.length
      ∧ s.d.refCount = (okOpens ops rs : Int) - closeOps ops := by
  obtain ⟨rs, s, hrun, hlen, _, hrc⟩ := runOps_refCount ops State.fresh rfl
  refine ⟨rs, s, hrun, hlen, ?_⟩
  rw [hrc]
  simp [State.fresh, newDB]

/-! ## Errors handed to the caller -/

/-- A wrapped error is never the error it wraps: the message grew. -/
theorem errorf_ne (ctx : String) (e : Err) : errorf ctx e ≠ e := by
  intro h
  have hlen := congrArg String.length h
  simp only [errorf, String.length_append] at hlen
  have h2 : (": " : String).length = 2 := by decide
  omega

/-- One call of `open()` makes at most one `bolt.Open` call and no `Close` call. -/
theorem open_engine_calls (openErr updErr : Option Err) (s : State) (r : Option Err) (s' : State)
    (hrun : db.open openErr updErr s = some (r, s')) :
    openCalls s'.eng.calls ≤ openCalls s.eng.calls + 1
      ∧ closeCalls s'.eng.calls = closeCalls s.eng.calls := by
  cases hopened : s.d.opened with
  | true =>
    rw [open_of_opened _ _ s hopened] at hrun
    simp only [Option.some.injEq, Prod.mk.injEq] at hrun
    obtain ⟨_, rfl⟩ := hrun
    exact ⟨Nat.le_succ _, rfl⟩
  | false =>
    cases hlock : s.d.lock with
    | true => simp [db.open, hopened, hlock] at hrun
    | false =>
      cases openErr with
      | some e =>
        rw [open_of_closed_err e updErr s hopened hlock] at hrun
        simp only [Option.some.injEq, Prod.mk.injEq] at hrun
        obtain ⟨_, rfl⟩ := hrun
        simp [State.record, openCalls_append, closeCalls_append, openCalls, closeCalls]
      | none =>
        rw [open_of_closed_ok updErr s hopened hlock] at hrun
        simp only [Option.some.injEq, Prod.mk.injEq] at hrun
        obtain ⟨_, rfl⟩ := hrun
        simp [openCalls_append, closeCalls_append, openCalls, closeCalls]

/-- One call of `close()` makes at most one `Close` call and no `bolt.Open` call. -/
theorem close_engine_calls (closeErr : Option Err) (s : State) :
    closeCalls (db.close closeErr s).2.eng.calls ≤ closeCalls s.eng.calls + 1
      ∧ openCalls (db.close closeErr s).2.eng.calls = openCalls s.eng.calls := by
  by_cases h1 : s.d.refCount = 1
  · cases closeErr with
    | some e =>
      rw [close_of_one_err e s h1]
      simp [openCalls_append, closeCalls_append, openCalls, closeCalls]
    | none =>
      rw [close_of_one_ok s h1]
      simp [openCalls_append, closeCalls_append, openCalls, closeCalls]
  · rw [close_of_ne_one closeErr s h1]
    exact ⟨Nat.le_succ _, rfl⟩

/-- C11 (fails as stated): on a fresh handle whose `bolt.Open` fails with
`timeout`, `open()` returns `timeout` itself, which is not `timeout` wrapped
with any context; and on a handle opened once, a failing `Close` comes back
from `close()` just as bare. -/
theorem C11_errors_are_not_wrapped :
    db.open (some "timeout") none State.fresh
        = some (some "timeout", State.fresh.record (EngineCall.openErr "timeout"))
      ∧ (¬ ∃ ctx, db.open (some "timeout") none State.fresh
          = some (some (errorf ctx "timeout"), State.fresh.record (EngineCall.openErr "timeout")))
      ∧ (¬ ∃ ctx, (db.close (some "io")
            { d := { handle := 1, opened := true, refCount := 1, lock := false },
              eng := { next := 2, calls := [EngineCall.openOk 1, EngineCall.update 1 none] } }).1
          = some (errorf ctx "io")) := by
  refine ⟨rfl, ?_, ?_⟩
  · rintro ⟨ctx, h⟩
    rw [open_of_closed_err "timeout" none State.fresh rfl rfl] at h
    simp only [Option.some.injEq, Prod.mk.injEq, and_true] at h
    exact errorf_ne ctx "timeout" h.symm
  · rintro ⟨ctx, h⟩
    rw [close_of_one_err "io" _ rfl] at h
    simp only [Option.some.injEq] at h
    exact errorf_ne ctx "io" h.symm

/-- C11 (amended): when `bolt.Open` fails with `e`, `open()` returns `e` itself,
unwrapped, after exactly one `bolt.Open` call; when `Close` fails with `e`,
`close()` returns `e` itself, unwrapped, after exactly one `Close` call.  No
call of `open()` makes more than one `bolt.Open` call and no call of `close()`
more than one `Close` call: nothing is retried. -/
theorem C11_errors_returned_as_is (e : Err) (updErr : Option Err) (s t : State)
    (h : s.d.opened = false) (hl : s.d.lock = false) (ht : t.d.refCount = 1) :
    (∃ s', db.open (some e) updErr s = some (some e, s')
        ∧ openCalls s'.eng.calls = openCalls s.eng.calls + 1)
    ∧ (∃ t', db.close (some e) t = (some e, t')
        ∧ closeCalls t'.eng.calls = closeCalls t.eng.calls + 1)
    ∧ (∀ openErr u r u', db.open openErr updErr u = some (r, u') →
        openCalls u'.eng.calls ≤ openCalls u.eng.calls + 1)
    ∧ (∀ closeErr u,
        closeCalls (db.close closeErr u).2.eng.calls ≤ closeCalls u.eng.calls + 1) := by
  refine ⟨⟨_, open_of_closed_err e updErr s h hl, ?_⟩, ⟨_, close_of_one_err e t ht, ?_⟩, ?_, ?_⟩
  · simp [State.record, openCalls_append, openCalls]
  · simp [closeCalls_append, closeCalls]
  · intro openErr u r u' hrun
    exact (open_engine_calls openErr updErr u r u' hrun).1
  · intro closeErr u
    exact (close_engine_calls closeErr u).1

/-- The as-is statement on a fresh handle and on a handle opened once. -/
theorem C11_errors_returned_as_is_witness :
    (State.fresh.d.opened = false ∧ State.fresh.d.lock = false
      ∧ ({ d := { handle := 1, opened := true, refCount := 1, lock := false },
           eng := { next := 2, calls := [EngineCall.openOk 1, EngineCall.update 1 none] } }
          : State).d.refCount = 1)
    ∧ (∃ s', db.open (some "timeout") none State.fresh = some (some "timeout", s')
        ∧ openCalls s'.eng.calls = openCalls State.fresh.eng.calls + 1)
    ∧ (∃ t', db.close (some "timeout")
          { d := { handle := 1, opened := true, refCount := 1, lock := false },
            eng := { next := 2, calls := [EngineCall.openOk 1, EngineCall.update 1 none] } }
          = (some "timeout", t')
        ∧ closeCalls t'.eng.calls
            = closeCalls [EngineCall.openOk 1, EngineCall.update 1 none] + 1) :=
  ⟨⟨rfl, rfl, rfl⟩,
    (C11_errors_returned_as_is "timeout" none State.fresh
      { d := { handle := 1, opened := true, refCount := 1, lock := false },
        eng := { next := 2, calls := [EngineCall.openOk 1, EngineCall.update 1 none] } }
      rfl rfl rfl).1,
    (C11_errors_returned_as_is "timeout" none State.fresh
      { d := { handle := 1, opened := true, refCount := 1, lock := false },
        eng := { next := 2, calls := [EngineCall.openOk 1, EngineCall.update 1 none] } }
      rfl rfl rfl).2.1⟩

/-! ## A release racing with an acquire -/

/-- C13 (fails on the code): the handle is open with one holder (`refCount` 1,
connection 1).  A goroutine calls `open()` and reads `opened` true at line 36;
the holder's `close()` then takes `refCount` to 0, calls `Close` on connection
1 and stores `opened` false; the `open()` goes on to line 37, adds one and
returns nil.  No `bolt.Open` was called: the caller holds a reference
(`refCount` 1) to connection 1, which is closed, on a handle whose `opened` is
false. -/
theorem C13_open_returns_closed_connection :
    ∃ p : Pool,
      Pool.exec [0, 1, 1, 1, 0]
          { threads := [Thread.callOpen none none, Thread.callClose none],
            s := { d := { handle := 1, opened := true, refCount := 1, lock := false },
                   eng := { next := 2,
                            calls := [EngineCall.openOk 1, EngineCall.update 1 none] } } }
          = some p
        ∧ p.threads.map Thread.pc = [PC.done none, PC.done none]
        ∧ p.s.eng.calls = [EngineCall.openOk 1, EngineCall.update 1 none,
            EngineCall.close 1 none]
        ∧ p.s.d.handle = 1
        ∧ p.s.d.opened = false
        ∧ p.s.d.refCount = 1 := by
  refine ⟨_, rfl, ?_, ?_, ?_, ?_, ?_⟩ <;> decide

/-! ## Goroutines racing to open -/

/-- Replacing element `i` of a list moves a count by what the old and the new element weigh. -/
theorem countP_set_add (q : Thread → Bool) (l : List Thread) (i : Nat) (t t' : Thread)
    (h : l.get? i = some t) :
    (l.set i t').countP q + (if q t = true then 1 else 0)
      = l.countP q + (if q t' = true then 1 else 0) := by
  induction l generalizing i with
  | nil => simp at h
  | cons a l ih =>
    cases i with
    | zero =>
      simp only [List.get?_cons_zero, Option.some.injEq] at h
      subst h
      simp only [List.set_cons_zero, List.countP_cons]
      omega
    | succ i =>
      simp only [List.get?_cons_succ] at h
      have := ih i h
      simp only [List.set_cons_succ, List.countP_cons]
      omega

/-- A position about to open, or opening, is inside the critical section. -/
theorem atBolt_opening_le_inCrit (pc : PC) :
    (if pc.atBolt = true then 1 else 0) + (if pc.opening = true then 1 else 0)
      ≤ (if pc.inCrit = true then 1 else 0) := by
  cases pc <;> simp [PC.atBolt, PC.opening, PC.inCrit]

/-- A goroutine about to open, or opening, is inside the critical section. -/
theorem boltCount_add_openingCount_le (ts : List Thread) :
    boltCount ts + openingCount ts ≤ critCount ts := by
  induction ts with
  | nil => simp [boltCount, openingCount, critCount]
  | cons t ts ih =>
    have hpt := atBolt_opening_le_inCrit t.pc
    simp only [boltCount, openingCount, critCount] at ih ⊢
    rw [List.countP_cons, List.countP_cons, List.countP_cons]
    omega

/-- Moving one goroutine to a new position and the state to a new state keeps
the racing invariant, provided the new position is a legal one for the new
state and the counts still add up. -/
theorem racing_set (c0 : Nat) (p : Pool) (i : Nat) (t : Thread) (pc' : PC) (s' : State)
    (hinv : Racing c0 p) (hget : p.threads.get? i = some t)
    (hcl' : pc'.inClose = false) (hf' : pc'.failing = false)
    (hsaw' : pc'.sawOpened = true → s'.d.opened = true)
    (hmono : p.s.d.opened = true → s'.d.opened = true)
    (hnum : ∀ A B O A' B' O' : Nat,
      A = (if p.s.d.lock = true then 1 else 0) →
      (p.s.d.opened = true → B = 0 ∧ O = 0) →
      openCalls p.s.eng.calls = c0 + (if p.s.d.opened = true then 1 else 0) + O →
      B + O ≤ A →
      A' + (if t.pc.inCrit = true then 1 else 0) = A + (if pc'.inCrit = true then 1 else 0) →
      B' + (if t.pc.atBolt = true then 1 else 0) = B + (if pc'.atBolt = true then 1 else 0) →
      O' + (if t.pc.opening = true then 1 else 0) = O + (if pc'.opening = true then 1 else 0) →
      A' = (if s'.d.lock = true then 1 else 0)
        ∧ (s'.d.opened = true → B' = 0 ∧ O' = 0)
        ∧ openCalls s'.eng.calls = c0 + (if s'.d.opened = true then 1 else 0) + O') :
    Racing c0 { threads := p.threads.set i { t with pc := pc' }, s := s' } := by
  obtain ⟨hgood, hcrit, hopen, hcount⟩ := hinv
  obtain ⟨ho, _, _, _⟩ := hgood t (List.get?_mem hget)
  have hC := countP_set_add (fun t => t.pc.inCrit) p.threads i t { t with pc := pc' } hget
  have hB := countP_set_add (fun t => t.pc.atBolt) p.threads i t { t with pc := pc' } hget
  have hO := countP_set_add (fun t => t.pc.opening) p.threads i t { t with pc := pc' } hget
  have hle := boltCount_add_openingCount_le p.threads
  obtain ⟨n1, n2, n3⟩ := hnum _ _ _ _ _ _ hcrit hopen hcount hle hC hB hO
  refine ⟨?_, n1, n2, n3⟩
  intro u hu
  rcases List.mem_or_eq_of_mem_set hu with hu | rfl
  · obtain ⟨h1, h2, h3, h4⟩ := hgood u hu
    exact ⟨h1, h2, h3, fun hs => hmono (h4 hs)⟩
  · exact ⟨ho, hcl', hf', hsaw'⟩

/-- A position that hands back `ret` fails exactly when `ret` is an error. -/
theorem failing_done (ret : Option Err) :
    (PC.done ret).failing = (PC.openUnlock ret).failing := by
  cases ret <;> rfl

/-- What one atomic step of a goroutine inside `open()`, whose `bolt.Open`
would succeed, does to the position, to `opened` and to the counts. -/
theorem step_racing (c0 : Nat) (o : Outcome) (pc pc' : PC) (s s' : State)
    (ho : o.openErr = none) (hcl : pc.inClose = false) (hf : pc.failing = false)
    (hsaw : pc.sawOpened = true → s.d.opened = true)
    (hst : step o pc s = some (pc', s')) :
    pc'.inClose = false ∧ pc'.failing = false
      ∧ (pc'.sawOpened = true → s'.d.opened = true)
      ∧ (s.d.opened = true → s'.d.opened = true)
      ∧ (∀ A B O A' B' O' : Nat,
        A = (if s.d.lock = true then 1 else 0) →
        (s.d.opened = true → B = 0 ∧ O = 0) →
        openCalls s.eng.calls = c0 + (if s.d.opened = true then 1 else 0) + O →
        B + O ≤ A →
        A' + (if pc.inCrit = true then 1 else 0) = A + (if pc'.inCrit = true then 1 else 0) →
        B' + (if pc.atBolt = true then 1 else 0) = B + (if pc'.atBolt = true then 1 else 0) →
        O' + (if pc.opening = true then 1 else 0) = O + (if pc'.opening = true then 1 else 0) →
        A' = (if s'.d.lock = true then 1 else 0)
          ∧ (s'.d.opened = true → B' = 0 ∧ O' = 0)
          ∧ openCalls s'.eng.calls = c0 + (if s'.d.opened = true then 1 else 0) + O') := by
  cases pc <;> cases hop : s.d.opened <;> cases hlk : s.d.lock <;>
    simp only [PC.inClose, PC.sawOpened, Bool.true_eq_false, Bool.false_eq_true, hop,
      forall_true_left, true_implies, reduceCtorEq] at hcl hsaw <;>
    simp only [step, hop, hlk, ho, Option.some.injEq, Prod.mk.injEq, if_true, if_false,
      Bool.false_eq_true, reduceCtorEq, false_and, and_false] at hst <;>
    (obtain ⟨rfl, rfl⟩ := hst
     refine ⟨rfl, ?_, ?_, ?_, ?_⟩
     · first
         | rfl
         | exact (failing_done _).trans hf
     · first
         | (intro _; exact hop)
         | (intro _; rfl)
         | (intro h; cases h)
     · first
         | (intro _; exact hop)
         | (intro _; rfl)
         | (intro h; cases h)
     · intro A B O A' B' O' h1 h2 h3 h4 h5 h6 h7
       simp only [State.addRef, State.setLock, State.record, State.boltOpenOk, State.setHandle,
         State.storeOpened, hop, hlk, PC.inCrit, PC.atBolt, PC.opening, openCalls_append,
         openCalls, Bool.true_eq_false, Bool.false_eq_true, if_true, if_false, forall_true_left,
         true_implies, false_implies, implies_true, and_true, true_and, reduceCtorEq]
         at h1 h2 h3 h4 h5 h6 h7 ⊢
       omega)

/-- The racing invariant survives every atomic step of every goroutine. -/
theorem racing_step (c0 : Nat) (p p' : Pool) (i : Nat) (hinv : Racing c0 p)
    (hstep : p.step i = some p') : Racing c0 p' := by
  cases hget : p.threads.get? i with
  | none =>
    rw [Pool.step, hget] at hstep
    cases hstep
  | some t =>
    cases hst : KV.step t.out t.pc p.s with
    | none =>
      rw [Pool.step, hget] at hstep
      simp only [hst] at hstep
      cases hstep
    | some r =>
      obtain ⟨pc', s'⟩ := r
      have hp' : p' = { threads := p.threads.set i { t with pc := pc' }, s := s' } := by
        rw [Pool.step, hget] at hstep
        simp only [hst, Option.some.injEq] at hstep
        exact hstep.symm
      subst hp'
      obtain ⟨ho, hcl, hf, hsaw⟩ := hinv.1 t (List.get?_mem hget)
      obtain ⟨f1, f2, f3, f4, f5⟩ := step_racing c0 t.out t.pc pc' p.s s' ho hcl hf hsaw hst
      exact racing_set c0 p i t pc' s' hinv hget f1 f2 f3 f4 f5

/-- The racing invariant holds along every schedule. -/
theorem racing_exec (c0 : Nat) (sched : List Nat) (p p' : Pool) (hinv : Racing c0 p)
    (hrun : Pool.exec sched p = some p') : Racing c0 p' := by
  induction sched generalizing p with
  | nil =>
    simp only [Pool.exec, Option.some.injEq] at hrun
    subst hrun
    exact hinv
  | cons i sched ih =>
    rw [Pool.exec] at hrun
    cases hstep : p.step i with
    | none => simp [hstep] at hrun
    | some q =>
      simp only [hstep] at hrun
      exact ih q (racing_step c0 p q i hinv hstep) hrun

/-- Goroutines that all are about to call `open()`, with `bolt.Open` set to
succeed, on a handle with `opened` false and the mutex free, start a race. -/
theorem racing_init (updErrs : List (Option Err)) (s : State)
    (h : s.d.opened = false) (hl : s.d.lock = false) :
    Racing (openCalls s.eng.calls) { threads := updErrs.map (Thread.callOpen none), s := s } := by
  have hcount : ∀ q : PC → Bool, q PC.openLoad = false →
      (updErrs.map (Thread.callOpen none)).countP (fun t => q t.pc) = 0 := by
    intro q hq
    rw [List.countP_eq_zero]
    intro t ht
    rw [List.mem_map] at ht
    obtain ⟨u, _, rfl⟩ := ht
    simp [Thread.callOpen, hq]
  refine ⟨?_, ?_, ?_, ?_⟩
  · intro t ht
    rw [List.mem_map] at ht
    obtain ⟨u, _, rfl⟩ := ht
    refine ⟨rfl, rfl, rfl, ?_⟩
    intro hs
    cases hs
  · simp only [critCount, hcount PC.inCrit rfl, hl]
    rfl
  · intro ho
    rw [h] at ho
    cases ho
  · simp only [openingCount, hcount PC.opening rfl, h]
    rfl

/-- C12 (fails as stated): two goroutines call `open()` on a fresh handle and
both read `opened` false at line 36.  The first takes the mutex and its
`bolt.Open` fails with `timeout`; the second then takes the mutex, still reads
`opened` false at line 44 and calls `bolt.Open` as well.  Both goroutines
invoked the engine: the log holds two `bolt.Open` calls. -/
theorem C12_failed_open_is_tried_again :
    ∃ p : Pool,
      Pool.exec [0, 1, 0, 0, 0, 0, 1, 1, 1, 1, 1, 1, 1, 1]
          { threads := [Thread.callOpen (some "timeout") none, Thread.callOpen none none],
            s := State.fresh } = some p
        ∧ p.threads.map Thread.pc = [PC.done (some "timeout"), PC.done none]
        ∧ p.s.eng.calls = [EngineCall.openErr "timeout", EngineCall.openOk 1,
            EngineCall.update 1 none]
        ∧ openCalls p.s.eng.calls = 2 := by
  refine ⟨_, rfl, ?_, ?_, ?_⟩ <;> decide

/-! ## The counter as 64 bits -/

theorem wrap64_of_inInt64 (x : Int) (h : InInt64 x) : wrap64 x = x := by
  obtain ⟨h1, h2⟩ := h
  simp only [minInt64, maxInt64] at h1 h2
  simp only [wrap64]
  omega

theorem inInt64_wrap64 (x : Int) : InInt64 (wrap64 x) := by
  simp only [InInt64, wrap64, minInt64, maxInt64]
  omega

theorem wrap64_wrap64_add (x k : Int) : wrap64 (wrap64 x + k) = wrap64 (x + k) := by
  simp only [wrap64]
  omega

/-- Inside the range the 64-bit `Add` is plain addition. -/
theorem addRef64_eq_addRef (k : Int) (s : State) (h : InInt64 (s.d.refCount + k)) :
    s.addRef64 k = s.addRef k := by
  simp only [State.addRef64, State.addRef, wrap64_of_inInt64 _ h]

/-- While `opened` is true, `open()` is the lock-free fast path (64-bit counter). -/
theorem open64_of_opened (openErr updErr : Option Err) (s : State) (h : s.d.opened = true) :
    db.open64 openErr updErr s = some (none, s.addRef64 1) := by
  simp [db.open64, h]

/-- With `opened` false and the mutex free, a successful `bolt.Open` is followed
by `Update`, the three stores and the unlock (64-bit counter). -/
theorem open64_of_closed_ok (updErr : Option Err) (s : State)
    (h : s.d.opened = false) (hl : s.d.lock = false) :
    db.open64 none updErr s = some (none,
      { d := { handle := s.eng.next, opened := true, refCount := wrap64 (s.d.refCount + 1),
               lock := false },
        eng := { next := s.eng.next + 1,
                 calls := s.eng.calls ++
                   [EngineCall.openOk s.eng.next, EngineCall.update s.eng.next updErr] } }) := by
  obtain ⟨⟨hd, op, rc, lk⟩, eng⟩ := s
  simp only at h hl
  subst h hl
  simp [db.open64, State.setLock, State.record, State.boltOpenOk, State.setHandle,
    State.storeOpened, State.addRef64]

/-- A 64-bit count other than 1 does not drop to zero, so `close()` only decrements. -/
theorem close64_of_ne_one (closeErr : Option Err) (s : State) (hr : InInt64 s.d.refCount)
    (h : s.d.refCount ≠ 1) :
    db.close64 closeErr s = (none, s.addRef64 (-1)) := by
  have h0 : ¬ (wrap64 (s.d.refCount + -1) = 0) := by
    obtain ⟨h1, h2⟩ := hr
    simp only [minInt64, maxInt64] at h1 h2
    simp only [wrap64]
    omega
  simp [db.close64, State.addRef64, h0]

/-- The two versions of `open()` agree when adding one stays inside the range. -/
theorem open64_eq_open (openErr updErr : Option Err) (s : State)
    (h : InInt64 (s.d.refCount + 1)) :
    db.open64 openErr updErr s = db.open openErr updErr s := by
  have hw := wrap64_of_inInt64 _ h
  cases hop : s.d.opened <;> cases hl : s.d.lock <;> cases openErr <;>
    simp [db.open64, db.open, hop, hl, State.setLock, State.addRef64, State.addRef,
      State.storeOpened, State.setHandle, State.record, State.boltOpenOk, hw]

/-- The two versions of `close()` agree when subtracting one stays inside the range. -/
theorem close64_eq_close (closeErr : Option Err) (s : State)
    (h : InInt64 (s.d.refCount - 1)) :
    db.close64 closeErr s = db.close closeErr s := by
  have hw : wrap64 (s.d.refCount + -1) = s.d.refCount + -1 :=
    wrap64_of_inInt64 _ (by simpa [sub_eq_add_neg] using h)
  simp only [db.close64, db.close, State.addRef64, State.addRef, hw]

/-- One call moves the count by at most one. -/
theorem run_refCount_near (op : Op) (s : State) (r : Option Err) (s' : State)
    (hrun : op.run s = some (r, s')) :
    s.d.refCount - 1 ≤ s'.d.refCount ∧ s'.d.refCount ≤ s.d.refCount + 1 := by
  cases op with
  | «open» openErr updErr =>
    simp only [Op.run] at hrun
    cases hop : s.d.opened with
    | true =>
      rw [open_of_opened _ _ s hop] at hrun
      simp only [Option.some.injEq, Prod.mk.injEq] at hrun
      obtain ⟨_, rfl⟩ := hrun
      simp only [State.addRef]
      omega
    | false =>
      cases hl : s.d.lock with
      | true => simp [db.open, hop, hl] at hrun
      | false =>
        cases openErr with
        | some e =>
          rw [open_of_closed_err e updErr s hop hl] at hrun
          simp only [Option.some.injEq, Prod.mk.injEq] at hrun
          obtain ⟨_, rfl⟩ := hrun
          simp only [State.record]
          omega
        | none =>
          rw [open_of_closed_ok updErr s hop hl] at hrun
          simp only [Option.some.injEq, Prod.mk.injEq] at hrun
          obtain ⟨_, rfl⟩ := hrun
          simp only
          omega
  | close closeErr =>
    simp only [Op.run, Option.some.injEq] at hrun
    have hrc : (db.close closeErr s).2.d.refCount = s.d.refCount - 1 := by
      by_cases h1 : s.d.refCount = 1
      · cases closeErr with
        | some e => rw [close_of_one_err e s h1]; simp [h1]
        | none => rw [close_of_one_ok s h1]; simp [h1]
      · rw [close_of_ne_one closeErr s h1]; rfl
    rw [hrun] at hrc
    simp only at hrc
    omega

/-- Calls run one after another give the same results and the same state with
either counter, as long as the count cannot leave the 64-bit range: it starts
within `m` of zero and `m` plus the number of calls is below `2^63`. -/
theorem runOps64_eq_runOps_of_near (ops : List Op) (s : State) (m : Nat)
    (hlo : -(m : Int) ≤ s.d.refCount) (hhi : s.d.refCount ≤ m)
    (hlen : (m : Int) + ops.length ≤ maxInt64) :
    runOps64 ops s = runOps ops s := by
  induction ops generalizing s m with
  | nil => rfl
  | cons op ops ih =>
    simp only [List.length_cons, Nat.cast_add, Nat.cast_one, maxInt64] at hlen
    have hstep : op.run64 s = op.run s := by
      cases op with
      | «open» openErr updErr =>
        exact open64_eq_open openErr updErr s
          ⟨by simp only [minInt64]; omega, by simp only [maxInt64]; omega⟩
      | close closeErr =>
        simp only [Op.run64, Op.run]
        rw [close64_eq_close closeErr s
          ⟨by simp only [minInt64]; omega, by simp only [maxInt64]; omega⟩]
    rw [runOps64, runOps, hstep]
    cases hrun : op.run s with
    | none => rfl
    | some q =>
      obtain ⟨r, s'⟩ := q
      obtain ⟨h1, h2⟩ := run_refCount_near op s r s' hrun
      simp only
      rw [ih s' (m + 1) (by push_cast; omega) (by push_cast; omega)
        (by simp only [maxInt64]; push_cast; omega)]

/-- On a fresh handle, fewer than `2^63` calls run one after another behave the
same with the 64-bit counter as with the unbounded one. -/
theorem runOps64_eq_runOps (ops : List Op) (h : (ops.length : Int) ≤ maxInt64) :
    runOps64 ops State.fresh = runOps ops State.fresh := by
  refine runOps64_eq_runOps_of_near ops State.fresh 0 ?_ ?_ ?_
  · simp [State.fresh, newDB]
  · simp [State.fresh, newDB]
  · simpa using h

theorem addRef64_addRef64 (a b : Int) (s : State) :
    (s.addRef64 a).addRef64 b = s.addRef64 (a + b) := by
  simp only [State.addRef64, wrap64_wrap64_add, add_assoc]

/-- Any run of `open()` calls on an open store takes the fast path every time
(64-bit counter): the count moves by the number of calls, wrapped. -/
theorem runOps64_opens_of_opened (outs : List (Option Err × Option Err)) (s : State)
    (h : s.d.opened = true) (hr : InInt64 s.d.refCount) :
    ∃ s', runOps64 (opensWith outs) s = some (List.replicate outs.length none, s')
      ∧ s'.eng = s.eng ∧ s'.d.opened = true ∧ s'.d.handle = s.d.handle
      ∧ s'.d.lock = s.d.lock
      ∧ s'.d.refCount = wrap64 (s.d.refCount + outs.length) := by
  induction outs generalizing s with
  | nil =>
    refine ⟨s, rfl, rfl, h, rfl, rfl, ?_⟩
    simp [wrap64_of_inInt64 _ hr]
  | cons o outs ih =>
    obtain ⟨s', hrun, h1, h2, h3, h4, h5⟩ := ih (s.addRef64 1) h (inInt64_wrap64 _)
    refine ⟨s', ?_, h1, h2, h3, h4, ?_⟩
    · simp only [opensWith] at hrun
      simp [opensWith, runOps64, Op.run64, open64_of_opened _ _ s h, hrun, List.replicate_succ]
    · rw [h5]
      simp only [State.addRef64, wrap64_wrap64_add, List.length_cons]
      congr 1
      push_cast
      ring

/-! ## Claims that depend on the width of the counter -/

/-- C6 (fails as stated): on an open handle whose `refCount` is the largest
`int64`, one more `open()` returns nil and leaves `refCount` at the smallest
`int64`, not at one more. -/
theorem C6_count_wraps_at_max :
    ∃ s' : State,
      runOps64 (opensWith [(none, none)])
          { d := { handle := 1, opened := true, refCount := maxInt64, lock := false },
            eng := { next := 2, calls := [EngineCall.openOk 1, EngineCall.update 1 none] } }
        = some ([none], s')
      ∧ s'.d.refCount = minInt64
      ∧ s'.d.refCount ≠ maxInt64 + 1 := by
  refine ⟨_, rfl, ?_, ?_⟩ <;> decide

/-- C6 (amended): on a handle whose `opened` is true, `k` calls of `open()` in
a row that do not take the 64-bit `refCount` past the largest `int64`,
whatever the engine would answer, all return nil, leave the engine untouched
(no `bolt.Open`, no container creation), leave `opened`, the connection and
the mutex as they were, and raise `refCount` by `k`. -/
theorem C6_open_while_opened_in_range (outs : List (Option Err × Option Err)) (s : State)
    (h : s.d.opened = true) (hr : InInt64 s.d.refCount)
    (hk : s.d.refCount + outs.length ≤ maxInt64) :
    ∃ s', runOps64 (opensWith outs) s = some (List.replicate outs.length none, s')
      ∧ s'.eng = s.eng
      ∧ s'.d.opened = true
      ∧ s'.d.handle = s.d.handle
      ∧ s'.d.lock = s.d.lock
      ∧ s'.d.refCount = s.d.refCount + outs.length := by
  obtain ⟨s', hrun, h1, h2, h3, h4, h5⟩ := runOps64_opens_of_opened outs s h hr
  refine ⟨s', hrun, h1, h2, h3, h4, ?_⟩
  rw [h5]
  exact wrap64_of_inInt64 _ ⟨le_trans hr.1 (by omega), hk⟩

/-- The fast-path statement for three opens on a handle two below the largest count. -/
theorem C6_open_while_opened_in_range_witness :
    (({ d := { handle := 1, opened := true, refCount := maxInt64 - 3, lock := false },
        eng := Engine.fresh } : State).d.opened = true
      ∧ InInt64 (maxInt64 - 3)
      ∧ (maxInt64 - 3 : Int)
          + [(none, none), (some "e", none), ((none : Option Err), some "u")].length ≤ maxInt64)
    ∧ ∃ s', runOps64 (opensWith [(none, none), (some "e", none), (none, some "u")])
        { d := { handle := 1, opened := true, refCount := maxInt64 - 3, lock := false },
          eng := Engine.fresh }
        = some (List.replicate [(none, none), (some "e", none), ((none : Option Err), some "u")].length
            none, s')
      ∧ s'.eng = Engine.fresh
      ∧ s'.d.opened = true
      ∧ s'.d.handle = 1
      ∧ s'.d.lock = false
      ∧ s'.d.refCount = maxInt64 - 3
          + [(none, none), (some "e", none), ((none : Option Err), some "u")].length :=
  ⟨⟨rfl, by decide, by decide⟩,
    C6_open_while_opened_in_range [(none, none), (some "e", none), (none, some "u")]
      { d := { handle := 1, opened := true, refCount := maxInt64 - 3, lock := false },
        eng := Engine.fresh } rfl (by decide) (by decide)⟩

/-- C8 (fails as stated): on a closed handle whose `refCount` is the largest
`int64`, an `open()` whose container creation fails returns nil and leaves
`refCount` at the smallest `int64`, not at one more. -/
theorem C8_count_wraps_at_max :
    ∃ s' : State,
      db.open64 none (some "bucket")
          { d := { handle := noConn, opened := false, refCount := maxInt64, lock := false },
            eng := Engine.fresh }
        = some (none, s')
      ∧ s'.d.opened = true
      ∧ s'.d.refCount = minInt64
      ∧ s'.d.refCount ≠ maxInt64 + 1 := by
  refine ⟨_, rfl, ?_, ?_, ?_⟩ <;> decide

/-- C8 (amended): with `opened` false and the mutex free, if `bolt.Open`
succeeds and the container creation fails with `e`, `open()` still returns
nil, stores the new connection, sets `opened` and adds one to the 64-bit
`refCount`; the returned value and the handle are those of the run in which
container creation succeeds.  The addition is 64-bit: `refCount` goes up by
one whenever it was below the largest `int64`. -/
theorem C8_update_failure_ignored (e : Err) (s : State)
    (h : s.d.opened = false) (hl : s.d.lock = false) :
    ∃ s' t', db.open64 none (some e) s = some (none, s')
      ∧ db.open64 none none s = some (none, t')
      ∧ s'.d = t'.d
      ∧ s'.d.handle = s.eng.next
      ∧ s'.d.opened = true
      ∧ s'.d.refCount = wrap64 (s.d.refCount + 1)
      ∧ (InInt64 s.d.refCount → s.d.refCount < maxInt64 → s'.d.refCount = s.d.refCount + 1)
      ∧ s'.eng.calls = s.eng.calls ++
          [EngineCall.openOk s.eng.next, EngineCall.update s.eng.next (some e)] := by
  refine ⟨_, _, open64_of_closed_ok (some e) s h hl, open64_of_closed_ok none s h hl,
    rfl, rfl, rfl, rfl, ?_, rfl⟩
  intro hr hmax
  refine wrap64_of_inInt64 _ ⟨le_trans hr.1 (by omega), ?_⟩
  simp only [maxInt64] at hmax ⊢
  omega

/-- The lenient-initialisation statement at a fresh handle whose container creation fails. -/
theorem C8_update_failure_ignored_witness :
    (State.fresh.d.opened = false ∧ State.fresh.d.lock = false)
    ∧ ∃ s' t', db.open64 none (some "bucket") State.fresh = some (none, s')
      ∧ db.open64 none none State.fresh = some (none, t')
      ∧ s'.d = t'.d
      ∧ s'.d.handle = State.fresh.eng.next
      ∧ s'.d.opened = true
      ∧ s'.d.refCount = wrap64 (State.fresh.d.refCount + 1)
      ∧ (InInt64 State.fresh.d.refCount → State.fresh.d.refCount < maxInt64 →
          s'.d.refCount = State.fresh.d.refCount + 1)
      ∧ s'.eng.calls = State.fresh.eng.calls ++
          [EngineCall.openOk State.fresh.eng.next,
           EngineCall.update State.fresh.eng.next (some "bucket")] :=
  ⟨⟨rfl, rfl⟩, C8_update_failure_ignored "bucket" State.fresh rfl rfl⟩

/-- C9 (fails as stated): on a handle whose `refCount` is the smallest `int64`
(which is not 1), `close()` returns nil without an engine call and leaves
`refCount` at the largest `int64`, not at one less. -/
theorem C9_count_wraps_at_min :
    ∃ s' : State,
      db.close64 none
          { d := { handle := 1, opened := true, refCount := minInt64, lock := false },
            eng := { next := 2, calls := [EngineCall.openOk 1, EngineCall.update 1 none] } }
        = (none, s')
      ∧ s'.eng.calls = [EngineCall.openOk 1, EngineCall.update 1 none]
      ∧ s'.d.refCount = maxInt64
      ∧ s'.d.refCount ≠ minInt64 - 1 := by
  refine ⟨_, rfl, ?_, ?_, ?_⟩ <;> decide

/-- C9 (amended): when the 64-bit `refCount` is not 1 (zero and negative counts
included), `close()` returns nil, makes no engine call, and changes nothing
but `refCount`, which takes the 64-bit value of `refCount - 1`: it drops by
one whenever it was above the smallest `int64`. -/
theorem C9_close_only_decrements (closeErr : Option Err) (s : State)
    (hr : InInt64 s.d.refCount) (h : s.d.refCount ≠ 1) :
    ∃ s', db.close64 closeErr s = (none, s')
      ∧ s'.eng = s.eng
      ∧ s'.d.opened = s.d.opened
      ∧ s'.d.handle = s.d.handle
      ∧ s'.d.lock = s.d.lock
      ∧ s'.d.refCount = wrap64 (s.d.refCount - 1)
      ∧ (minInt64 < s.d.refCount → s'.d.refCount = s.d.refCount - 1) := by
  refine ⟨_, close64_of_ne_one closeErr s hr h, rfl, rfl, rfl, rfl, rfl, ?_⟩
  intro hmin
  have hw : wrap64 (s.d.refCount + -1) = s.d.refCount + -1 := by
    refine wrap64_of_inInt64 _ ⟨?_, le_trans (by omega) hr.2⟩
    simp only [minInt64] at hmin ⊢
    omega
  simpa [State.addRef64, sub_eq_add_neg] using hw

/-- The decrement-only statement at a fresh handle: an over-release takes `refCount` to -1. -/
theorem C9_close_only_decrements_witness :
    (InInt64 State.fresh.d.refCount ∧ State.fresh.d.refCount ≠ 1)
    ∧ ∃ s', db.close64 (some "unused") State.fresh = (none, s')
      ∧ s'.eng = State.fresh.eng
      ∧ s'.d.opened = State.fresh.d.opened
      ∧ s'.d.handle = State.fresh.d.handle
      ∧ s'.d.lock = State.fresh.d.lock
      ∧ s'.d.refCount = wrap64 (State.fresh.d.refCount - 1)
      ∧ (minInt64 < State.fresh.d.refCount → s'.d.refCount = State.fresh.d.refCount - 1) :=
  ⟨⟨by decide, by decide⟩,
    C9_close_only_decrements (some "unused") State.fresh (by decide) (by decide)⟩

/-! ## Every race ends -/

/-- Every atomic step brings a goroutine closer to its return. -/
theorem step_remaining (o : Outcome) (pc pc' : PC) (s s' : State)
    (hst : step o pc s = some (pc', s')) : pc'.remaining < pc.remaining := by
  cases pc <;> simp only [step] at hst <;> (try split at hst) <;>
    simp only [Option.some.injEq, Prod.mk.injEq, reduceCtorEq] at hst <;>
    obtain ⟨rfl, _⟩ := hst <;> simp [PC.remaining]

/-- Replacing element `i` of a list moves a sum by what the old and the new element weigh. -/
theorem sum_set_add (f : Thread → Nat) (l : List Thread) (i : Nat) (t t' : Thread)
    (h : l.get? i = some t) :
    ((l.set i t').map f).sum + f t = (l.map f).sum + f t' := by
  induction l generalizing i with
  | nil => simp at h
  | cons a l ih =>
    cases i with
    | zero =>
      simp only [List.get?_cons_zero, Option.some.injEq] at h
      subst h
      simp only [List.set_cons_zero, List.map_cons, List.sum_cons]
      omega
    | succ i =>
      simp only [List.get?_cons_succ] at h
      have := ih i h
      simp only [List.set_cons_succ, List.map_cons, List.sum_cons]
      omega

/-- A step of the pool uses up at least one of the steps left and keeps the goroutines. -/
theorem pool_step_stepsLeft (p p' : Pool) (i : Nat) (hstep : p.step i = some p') :
    stepsLeft p'.threads + 1 ≤ stepsLeft p.threads
      ∧ p'.threads.length = p.threads.length := by
  cases hget : p.threads.get? i with
  | none =>
    rw [Pool.step, hget] at hstep
    cases hstep
  | some t =>
    cases hst : KV.step t.out t.pc p.s with
    | none =>
      rw [Pool.step, hget] at hstep
      simp only [hst] at hstep
      cases hstep
    | some r =>
      obtain ⟨pc', s'⟩ := r
      have hp' : p' = { threads := p.threads.set i { t with pc := pc' }, s := s' } := by
        rw [Pool.step, hget] at hstep
        simp only [hst, Option.some.injEq] at hstep
        exact hstep.symm
      subst hp'
      have hlt := step_remaining t.out t.pc pc' p.s s' hst
      have hsum := sum_set_add (fun t => t.pc.remaining) p.threads i t { t with pc := pc' } hget
      simp only [stepsLeft, List.length_set] at hsum ⊢
      exact ⟨by omega, trivial⟩

/-- A schedule that runs is no longer than the steps that were left. -/
theorem exec_stepsLeft (sched : List Nat) (p p' : Pool) (hrun : Pool.exec sched p = some p') :
    sched.length + stepsLeft p'.threads ≤ stepsLeft p.threads
      ∧ p'.threads.length = p.threads.length := by
  induction sched generalizing p with
  | nil =>
    simp only [Pool.exec, Option.some.injEq] at hrun
    subst hrun
    simp
  | cons i sched ih =>
    rw [Pool.exec] at hrun
    cases hstep : p.step i with
    | none => simp [hstep] at hrun
    | some q =>
      simp only [hstep] at hrun
      obtain ⟨h1, h2⟩ := pool_step_stepsLeft p q i hstep
      obtain ⟨h3, h4⟩ := ih q hrun
      simp only [List.length_cons]
      exact ⟨by omega, h4.trans h2⟩

/-- Goroutines about to call `open()` have nine steps each before them. -/
theorem stepsLeft_callOpen (openErr : Option Err) (updErrs : List (Option Err)) :
    stepsLeft (updErrs.map (Thread.callOpen openErr)) = 9 * updErrs.length := by
  induction updErrs with
  | nil => rfl
  | cons u us ih =>
    simp only [stepsLeft, List.map_cons, List.sum_cons, List.length_cons] at ih ⊢
    rw [ih]
    simp only [Thread.callOpen, PC.remaining]
    omega

/-- Running one schedule after another. -/
theorem exec_append (a b : List Nat) (p q r : Pool) (h1 : Pool.exec a p = some q)
    (h2 : Pool.exec b q = some r) : Pool.exec (a ++ b) p = some r := by
  induction a generalizing p with
  | nil =>
    simp only [Pool.exec, Option.some.injEq] at h1
    subst h1
    exact h2
  | cons i a ih =>
    rw [Pool.exec] at h1
    rw [List.cons_append, Pool.exec]
    cases hstep : p.step i with
    | none => simp [hstep] at h1
    | some p1 =>
      simp only [hstep] at h1 ⊢
      exact ih p1 h1

/-- A goroutine whose call has not returned can take a step, unless it waits for a held mutex. -/
theorem step_enabled (o : Outcome) (pc : PC) (s : State) (hret : pc.returned = false)
    (hlock : pc = PC.openLock → s.d.lock = false) : ∃ r, step o pc s = some r := by
  cases pc with
  | openLock => simp [step, hlock rfl]
  | openBolt => cases ho : o.openErr <;> simp [step, ho]
  | closeHandle => cases hc : o.closeErr <;> simp [step, hc]
  | done ret => simp [PC.returned] at hret
  | _ => exact ⟨_, rfl⟩

/-- A goroutine that can take a step makes the pool step. -/
theorem pool_step_of_step (p : Pool) (i : Nat) (t : Thread) (r : PC × State)
    (hget : p.threads.get? i = some t) (hst : step t.out t.pc p.s = some r) :
    ∃ p', p.step i = some p' := by
  rw [Pool.step, hget]
  simp only [hst]
  exact ⟨_, rfl⟩

/-- A race is never stuck: while some call has not returned, some goroutine can take a step. -/
theorem racing_progress (c0 : Nat) (p : Pool) (hinv : Racing c0 p)
    (hnot : ∃ t ∈ p.threads, t.pc.returned = false) : ∃ i p', p.step i = some p' := by
  obtain ⟨hgood, hcrit, _, _⟩ := hinv
  cases hlk : p.s.d.lock with
  | false =>
    obtain ⟨t, ht, hret⟩ := hnot
    obtain ⟨i, hget⟩ := List.mem_iff_get?.mp ht
    obtain ⟨r, hst⟩ := step_enabled t.out t.pc p.s hret (fun _ => hlk)
    exact ⟨i, pool_step_of_step p i t r hget hst⟩
  | true =>
    have hpos : 0 < critCount p.threads := by rw [hcrit, hlk]; simp
    obtain ⟨t, ht, hin⟩ := List.countP_pos_iff.mp hpos
    obtain ⟨i, hget⟩ := List.mem_iff_get?.mp ht
    have hret : t.pc.returned = false := by
      cases hpc : t.pc <;> simp [hpc, PC.inCrit, PC.returned] at hin ⊢
    have hnl : t.pc = PC.openLock → p.s.d.lock = false := by
      intro hpc
      simp [hpc, PC.inCrit] at hin
    obtain ⟨r, hst⟩ := step_enabled t.out t.pc p.s hret hnl
    exact ⟨i, pool_step_of_step p i t r hget hst⟩

/-- A race can always be run to the end: from every point some schedule lets every call return. -/
theorem racing_completes (c0 : Nat) (n : Nat) (p : Pool) (hinv : Racing c0 p)
    (hn : stepsLeft p.threads ≤ n) :
    ∃ rest q, Pool.exec rest p = some q ∧ ∀ t ∈ q.threads, t.pc.returned = true := by
  induction n generalizing p with
  | zero =>
    by_cases hall : ∀ t ∈ p.threads, t.pc.returned = true
    · exact ⟨[], p, rfl, hall⟩
    · have hnot : ∃ t ∈ p.threads, t.pc.returned = false := by
        by_contra hcon
        apply hall
        intro t ht
        cases hr : t.pc.returned with
        | true => rfl
        | false => exact absurd ⟨t, ht, hr⟩ hcon
      obtain ⟨i, p', hstep⟩ := racing_progress c0 p hinv hnot
      have := (pool_step_stepsLeft p p' i hstep).1
      omega
  | succ n ih =>
    by_cases hall : ∀ t ∈ p.threads, t.pc.returned = true
    · exact ⟨[], p, rfl, hall⟩
    · have hnot : ∃ t ∈ p.threads, t.pc.returned = false := by
        by_contra hcon
        apply hall
        intro t ht
        cases hr : t.pc.returned with
        | true => rfl
        | false => exact absurd ⟨t, ht, hr⟩ hcon
      obtain ⟨i, p', hstep⟩ := racing_progress c0 p hinv hnot
      have hlt := (pool_step_stepsLeft p p' i hstep).1
      obtain ⟨rest, q, hrun, hq⟩ := ih p' (racing_step c0 p p' i hinv hstep) (by omega)
      refine ⟨i :: rest, q, ?_, hq⟩
      rw [Pool.exec, hstep]
      exact hrun

/-- A goroutine that has read `opened` false at line 36 and takes the free
mutex while `opened` is still false calls `bolt.Open` once and returns what it
returned; if that was an error, `opened` is still false and the mutex is free
again, so the same holds for the next goroutine. -/
theorem slow_path_calls_open (o : Outcome) (s : State)
    (h : s.d.opened = false) (hl : s.d.lock = false) :
    ∃ s', runSolo o 8 PC.openLock s = some (o.openErr, s')
      ∧ openCalls s'.eng.calls = openCalls s.eng.calls + 1
      ∧ s'.d.lock = false
      ∧ s'.d.opened = o.openErr.isNone := by
  cases ho : o.openErr with
  | none =>
    refine ⟨_, by simp [runSolo, step, h, hl, ho, State.setLock]; rfl, ?_, rfl, rfl⟩
    simp [State.setLock, State.addRef, State.storeOpened, State.setHandle, State.record,
      State.boltOpenOk, openCalls_append, openCalls]
  | some e =>
    refine ⟨_, by simp [runSolo, step, h, hl, ho, State.setLock]; rfl, ?_, rfl, ?_⟩
    · simp [State.setLock, State.record, openCalls_append, openCalls]
    · simp [State.setLock, State.record, h]

/-- C12 (amended): any number of goroutines call `open()` on a handle with
`opened` false and the mutex free, and `bolt.Open` succeeds whenever it is
called.  Every interleaving of their atomic steps is finite (at most nine
steps per goroutine) and never stuck: while a call has not returned some
goroutine can step, so the interleaving runs on until every call has
returned, and every call returns nil.  Along the way `bolt.Open` is called at
most once, and exactly once by the time any call has returned: one goroutine
calls it and no other does. -/
theorem C12_one_open_when_open_succeeds (updErrs : List (Option Err)) (s : State)
    (sched : List Nat) (p : Pool) (h : s.d.opened = false) (hl : s.d.lock = false)
    (hrun : Pool.exec sched { threads := updErrs.map (Thread.callOpen none), s := s } = some p) :
    sched.length ≤ 9 * updErrs.length
      ∧ p.threads.length = updErrs.length
      ∧ openCalls p.s.eng.calls ≤ openCalls s.eng.calls + 1
      ∧ (∀ t ∈ p.threads, ∀ ret, t.pc = PC.done ret →
          ret = none ∧ p.s.d.opened = true
            ∧ openCalls p.s.eng.calls = openCalls s.eng.calls + 1)
      ∧ ((∃ t ∈ p.threads, t.pc.returned = false) → ∃ i p', p.step i = some p')
      ∧ (∃ rest q,
          Pool.exec (sched ++ rest) { threads := updErrs.map (Thread.callOpen none), s := s }
            = some q
          ∧ q.threads.length = updErrs.length
          ∧ (∀ t ∈ q.threads, t.pc = PC.done none)
          ∧ (updErrs ≠ [] → q.s.d.opened = true
              ∧ openCalls q.s.eng.calls = openCalls s.eng.calls + 1)) := by
  have hinit := racing_init updErrs s h hl
  have hinv := racing_exec _ sched _ p hinit hrun
  obtain ⟨hlen, hthreads⟩ := exec_stepsLeft sched _ p hrun
  simp only [stepsLeft_callOpen, List.length_map] at hlen hthreads
  have hdone : ∀ q : Pool, Racing (openCalls s.eng.calls) q → ∀ t ∈ q.threads, ∀ ret,
      t.pc = PC.done ret → ret = none ∧ q.s.d.opened = true
        ∧ openCalls q.s.eng.calls = openCalls s.eng.calls + 1 := by
    intro q hq t ht ret hpc
    obtain ⟨hgood, _, hopen, hcount⟩ := hq
    obtain ⟨_, _, hf, hsaw⟩ := hgood t ht
    rw [hpc] at hf hsaw
    have hopd : q.s.d.opened = true := hsaw rfl
    refine ⟨?_, hopd, ?_⟩
    · cases ret with
      | none => rfl
      | some e => simp [PC.failing] at hf
    · rw [hcount, (hopen hopd).2]
      simp [hopd]
  refine ⟨by omega, hthreads, ?_, hdone p hinv, racing_progress _ p hinv, ?_⟩
  · obtain ⟨_, hcrit, hopen, hcount⟩ := hinv
    have hle := boltCount_add_openingCount_le p.threads
    rw [hcount]
    cases hop : p.s.d.opened with
    | true =>
      have := (hopen hop).2
      simp only [this, if_true]
      omega
    | false =>
      have hc1 : critCount p.threads ≤ 1 := by
        rw [hcrit]; split <;> omega
      simp only [Bool.false_eq_true, if_false]
      omega
  · obtain ⟨rest, q, hrest, hall⟩ := racing_completes _ _ p hinv (le_refl _)
    have hq : Racing (openCalls s.eng.calls) q := racing_exec _ rest p q hinv hrest
    have hqlen : q.threads.length = updErrs.length :=
      (exec_stepsLeft rest p q hrest).2.trans hthreads
    have hnil : ∀ t ∈ q.threads, t.pc = PC.done none := by
      intro t ht
      have hr := hall t ht
      cases hpc : t.pc with
      | done ret => rw [(hdone q hq t ht ret hpc).1]
      | _ => simp [hpc, PC.returned] at hr
    refine ⟨rest, q, exec_append sched rest _ p q hrun hrest, hqlen, hnil, ?_⟩
    intro hne
    have hpos : 0 < q.threads.length := by
      rw [hqlen]; exact List.length_pos.mpr hne
    obtain ⟨t, ht⟩ := List.exists_mem_of_length_pos hpos
    obtain ⟨_, h2, h3⟩ := hdone q hq t ht none (hnil t ht)
    exact ⟨h2, h3⟩

/-- The one-open statement for two goroutines racing on a fresh handle, taken
while the first holds the mutex and the second waits for it. -/
theorem C12_one_open_when_open_succeeds_witness :
    ∃ p : Pool,
      (State.fresh.d.opened = false ∧ State.fresh.d.lock = false
        ∧ Pool.exec [0, 1, 0, 0, 0]
            { threads := [none, none].map (Thread.callOpen none), s := State.fresh } = some p)
      ∧ [0, 1, 0, 0, 0].length ≤ 9 * [(none : Option Err), none].length
      ∧ p.threads.length = [(none : Option Err), none].length
      ∧ openCalls p.s.eng.calls ≤ openCalls State.fresh.eng.calls + 1
      ∧ (∀ t ∈ p.threads, ∀ ret, t.pc = PC.done ret →
          ret = none ∧ p.s.d.opened = true
            ∧ openCalls p.s.eng.calls = openCalls State.fresh.eng.calls + 1)
      ∧ ((∃ t ∈ p.threads, t.pc.returned = false) → ∃ i p', p.step i = some p')
      ∧ (∃ rest q,
          Pool.exec ([0, 1, 0, 0, 0] ++ rest)
            { threads := [none, none].map (Thread.callOpen none), s := State.fresh } = some q
          ∧ q.threads.length = [(none : Option Err), none].length
          ∧ (∀ t ∈ q.threads, t.pc = PC.done none)
          ∧ ([(none : Option Err), none] ≠ [] → q.s.d.opened = true
              ∧ openCalls q.s.eng.calls = openCalls State.fresh.eng.calls + 1)) :=
  ⟨_, ⟨rfl, rfl, rfl⟩,
    C12_one_open_when_open_succeeds [none, none] State.fresh [0, 1, 0, 0, 0] _ rfl rfl rfl⟩

end KV
